import Mathlib

/-!
Verification development for the remote coding agent repository ("Bd").

The TypeScript sources are shallowly embedded: pure functions become Lean
functions over `List Char` / `String`, the stateful session storage becomes an
explicit `SessionStore` value threaded through the orchestrator, asynchronous
collaborator calls (platform sends, backend queries, file system, git, the
codebase database) become oracle fields of an `Env` record, and the observable
behaviour of one `handleMessage` call is the list of emitted `Action`s plus an
`Except` describing whether the returned promise resolved or rejected.

JavaScript-specific semantics (regex tokenization, `split('\n\n')`, `trim`,
truthiness of optional strings) are reproduced by the small helpers below.
-/

namespace Bd

/-- The single-quote character, written via its code point. -/
def squote : Char := Char.ofNat 39

/-- A string holding one single-quote character. -/
def sq : String := String.singleton squote

/-- Characters treated as whitespace by JavaScript `\s` and `String.trim`
(restricted to the code points that can actually occur in this repository's
messages: space, tab, LF, CR, VT, FF, NBSP, line/paragraph separator, BOM). -/
def isJsSpace (c : Char) : Bool :=
  c == ' ' || c == '\t' || c == '\n' || c == '\r' ||
  c == Char.ofNat 0x0B || c == Char.ofNat 0x0C || c == Char.ofNat 0xA0 ||
  c == Char.ofNat 0x2028 || c == Char.ofNat 0x2029 || c == Char.ofNat 0xFEFF

/-- `listStarts pat cs` is true when `pat` is an initial segment of `cs`. -/
def listStarts : List Char → List Char → Bool
  | [], _ => true
  | _ :: _, [] => false
  | p :: ps, c :: cs => p == c && listStarts ps cs

/-- JavaScript `s.startsWith(pat)`. -/
def strStarts (s pat : String) : Bool := listStarts pat.data s.data

/-- JavaScript `s.endsWith(c)` for a single character. -/
def listEnds (c : Char) (cs : List Char) : Bool := cs.getLast? == some c

/-- JavaScript `String.prototype.trim` on a character list. -/
def jsTrim (cs : List Char) : List Char :=
  ((cs.dropWhile isJsSpace).reverse.dropWhile isJsSpace).reverse

/-- `jsTrim` on a `String`. -/
def jsTrimStr (s : String) : String := String.mk (jsTrim s.data)

/-- JavaScript `s.split('\n\n')`: split at each leftmost, non-overlapping
occurrence of two consecutive newlines. -/
def splitNN : List Char → List (List Char)
  | [] => [[]]
  | '\n' :: '\n' :: rest => [] :: splitNN rest
  | c :: rest =>
    match splitNN rest with
    | [] => [[c]]
    | s :: ss => (c :: s) :: ss

/-- JavaScript `sections.join('\n\n')`. -/
def joinNN (ss : List (List Char)) : List Char := List.intercalate ['\n', '\n'] ss

/-- `subIn pat cs` is true when `pat` occurs as a contiguous substring of `cs`
(JavaScript `cs.includes(pat)`). -/
def subIn (pat cs : List Char) : Bool := cs.tails.any (fun t => listStarts pat t)

/-- JavaScript `s.includes(pat)`. -/
def strIn (s pat : String) : Bool := subIn pat.data s.data

/-- Replace the first occurrence of `pat` by `rep` (JavaScript
`s.replace(pat, rep)` with a string pattern). -/
def replaceFirst (pat rep : List Char) : List Char → List Char
  | [] => []
  | c :: cs =>
    if listStarts pat (c :: cs) then rep ++ (c :: cs).drop pat.length
    else c :: replaceFirst pat rep cs

/-- JavaScript `s.split(sep)` for a one-character separator. -/
def splitChar (sep : Char) : List Char → List (List Char)
  | [] => [[]]
  | c :: rest =>
    if c == sep then [] :: splitChar sep rest
    else
      match splitChar sep rest with
      | [] => [[c]]
      | s :: ss => (c :: s) :: ss

/-!
## Slash-command tokenization (src/handlers/command-handler.ts, `parseCommand`)

The source tokenizes with `text.match(/"[^"]+"|'[^']+'|\S+/g)`: scanning left to
right, at each position the regex first tries a double-quoted token, then a
single-quoted token, then a maximal run of non-whitespace; on failure the scan
advances one character.  Each step below consumes at least one character, so the
input length is a sufficient fuel.
-/

/-- One tokenization step cycle, with fuel. `quoteTok q rest` attempts `q[^q]+q`
starting after an opening quote `q`. -/
def jsTokensGo : Nat → List Char → List (List Char)
  | 0, _ => []
  | _ + 1, [] => []
  | fuel + 1, c :: rest =>
    if c == '"' || c == squote then
      let body := rest.takeWhile (fun x => x != c)
      let rest₂ := rest.dropWhile (fun x => x != c)
      match rest₂, body with
      | _ :: rest₃, _ :: _ =>
        (c :: body ++ [c]) :: jsTokensGo fuel rest₃
      | _, _ =>
        -- no closing quote (or empty body): fall back to the `\S+` alternative
        let tok := (c :: rest).takeWhile (fun x => !isJsSpace x)
        tok :: jsTokensGo fuel ((c :: rest).dropWhile (fun x => !isJsSpace x))
    else if isJsSpace c then
      jsTokensGo fuel rest
    else
      let tok := (c :: rest).takeWhile (fun x => !isJsSpace x)
      tok :: jsTokensGo fuel ((c :: rest).dropWhile (fun x => !isJsSpace x))

/-- All regex matches of `/"[^"]+"|'[^']+'|\S+/g` over the input. -/
def jsTokens (cs : List Char) : List (List Char) := jsTokensGo cs.length cs

/-- Result of `parseCommand`. -/
structure ParsedCommand where
  command : String
  args : List String
deriving DecidableEq

/-- Strip surrounding double or single quotes from an argument token
(`arg.slice(1, -1)` when both ends are the same quote kind). -/
def unquoteArg (arg : List Char) : List Char :=
  if (listStarts ['"'] arg && listEnds '"' arg) ||
     (listStarts [squote] arg && listEnds squote arg) then
    (arg.drop 1).dropLast
  else arg

/-- `parseCommand` from src/handlers/command-handler.ts: tokenize, drop the
leading marker character of the first token unconditionally, and unquote the
remaining tokens. -/
def parseCommand (text : String) : ParsedCommand :=
  let ms := jsTokens text.data
  match ms with
  | [] => ⟨"", []⟩
  | m :: rest =>
    if m.isEmpty then ⟨"", []⟩
    else ⟨String.mk (m.drop 1), rest.map (fun arg => String.mk (unquoteArg arg))⟩

/-!
## Command normalization (src/orchestrator/orchestrator.ts, `normalizeCommand`)
-/

/-- Known commands usable without the `/` marker (Slack compatibility). -/
def KNOWN_COMMANDS : List String :=
  ["clone", "help", "status", "reset", "getcwd", "setcwd", "commands",
   "command-set", "command-invoke", "load-commands", "codebase-switch", "repos"]

/-- First whitespace-delimited word of a trimmed string, lower-cased
(`trimmed.split(/\s+/)[0]?.toLowerCase()`). -/
def firstWordLower (cs : List Char) : List Char :=
  (cs.takeWhile (fun c => !isJsSpace c)).map Char.toLower

/-- `normalizeCommand`: prepend `/` when the first word is a known command and
the trimmed message does not already start with `/`. -/
def normalizeCommand (message : String) : String :=
  let trimmed := jsTrimStr message
  let firstWord := String.mk (firstWordLower trimmed.data)
  if firstWord ≠ "" && KNOWN_COMMANDS.contains firstWord && !(strStarts trimmed "/") then
    "/" ++ trimmed
  else message

/-!
## Data model (src/types, src/db)

Conversation and codebase records are read through collaborator oracles; the
session table is the mutable state the orchestrator owns, embedded as an
explicit `SessionStore` value.
-/

/-- A conversation record (src/types): platform type, optional linked codebase,
optional working directory, assistant-type selector. -/
structure Conversation where
  id : String
  platform_type : String
  codebase_id : Option String
  cwd : Option String
  ai_assistant_type : String
deriving DecidableEq

/-- A registered command definition (path is relative to the working dir). -/
structure CommandDef where
  path : String
  description : String
deriving DecidableEq

/-- A codebase record (src/db/codebases.ts row). The JSON `commands` mapping is
embedded as an association list. -/
structure Codebase where
  id : String
  name : String
  repository_url : Option String
  default_cwd : String
  ai_assistant_type : String
  commands : List (String × CommandDef)
deriving DecidableEq

/-- Lookup in the `commands` mapping (`codebase.commands[commandName]`). -/
def lookupCmd (cmds : List (String × CommandDef)) (name : String) : Option CommandDef :=
  (cmds.find? (fun p => p.1 == name)).map Prod.snd

/-- A session row. `lastCommand` embeds the `metadata.lastCommand` field used by
the plan-to-execute rotation check. -/
structure Session where
  id : String
  conversation_id : String
  codebase_id : Option String
  ai_assistant_type : String
  assistant_session_id : Option String
  lastCommand : Option String
  active : Bool
deriving DecidableEq

/-- The session table plus a counter supplying fresh session ids. -/
structure SessionStore where
  sessions : List Session
  nextId : Nat
deriving DecidableEq

/-- Modelled from the spec: `sessionDb.getActiveSession` (src/db/sessions.ts is
not under src/). Per spec §3 a Session carries an active/inactive flag and the
storage layer returns the active session of a conversation, if any. -/
def getActiveSession (st : SessionStore) (conversationId : String) : Option Session :=
  st.sessions.find? (fun s => s.conversation_id == conversationId && s.active)

/-- Fresh id handed out by the storage layer for the next created session. -/
def freshSessionId (st : SessionStore) : String := "session-" ++ toString st.nextId

/-- Modelled from the spec: `sessionDb.createSession` (src/db/sessions.ts is not
under src/). Spec §3: a created session starts active, with no resumable
backend token and empty metadata. -/
def createSession (st : SessionStore) (conversationId : String)
    (codebaseId : Option String) (assistantType : String) : SessionStore × Session :=
  let s : Session :=
    ⟨freshSessionId st, conversationId, codebaseId, assistantType, none, none, true⟩
  (⟨st.sessions ++ [s], st.nextId + 1⟩, s)

/-- Modelled from the spec: `sessionDb.deactivateSession` (src/db/sessions.ts is
not under src/). Spec §3: sessions are deactivated, never physically deleted. -/
def deactivateSession (st : SessionStore) (sessionId : String) : SessionStore :=
  ⟨st.sessions.map (fun s => if s.id == sessionId then { s with active := false } else s),
   st.nextId⟩

/-- Modelled from the spec: `sessionDb.updateSession` (src/db/sessions.ts is not
under src/). Persists the backend-issued resumable session token. -/
def updateSession (st : SessionStore) (sessionId : String) (assistantSessionId : String) :
    SessionStore :=
  ⟨st.sessions.map (fun s =>
      if s.id == sessionId then { s with assistant_session_id := some assistantSessionId } else s),
   st.nextId⟩

/-- Modelled from the spec: `sessionDb.updateSessionMetadata` (src/db/sessions.ts
is not under src/). Records the last invoked command name in session metadata. -/
def updateSessionMetadata (st : SessionStore) (sessionId : String) (lastCommand : String) :
    SessionStore :=
  ⟨st.sessions.map (fun s =>
      if s.id == sessionId then { s with lastCommand := some lastCommand } else s),
   st.nextId⟩

/-- Chunk tags of the backend stream (src/types `MessageChunk.type`). -/
inductive CType where
  | assistant
  | tool
  | result
  | system
  | thinking
deriving DecidableEq

/-- One backend stream chunk (src/types `MessageChunk`). `toolInput` is opaque
here; it is only ever passed to the formatting collaborator. -/
structure Chunk where
  type : CType
  content : Option String := none
  sessionId : Option String := none
  toolName : Option String := none
  toolInput : Option String := none
deriving DecidableEq

/-- JavaScript truthiness of an optional string field. -/
def truthy : Option String → Bool
  | none => false
  | some s => s != ""

/-- The backend's lazy chunk sequence: the chunks it yields, and, optionally, an
error it throws after the last yielded chunk. -/
structure BackendStream where
  chunks : List Chunk
  err : Option String := none
deriving DecidableEq

/-- `CommandResult` from src/types. -/
structure CommandResult where
  success : Bool
  message : String
  modified : Bool := false
deriving DecidableEq

/-- The platform adapter's declared streaming mode. -/
inductive Mode where
  | stream
  | batch
deriving DecidableEq

/-- Externally observable effects of one `handleMessage` call, in order. -/
inductive Action where
  | send (text : String)
  | backendQuery (prompt : String) (cwd : String) (resume : Option String)
  | createdSession (id : String)
  | deactivatedSession (id : String)
  | storedBackendToken (id : String) (token : String)
  | storedLastCommand (id : String) (command : String)
deriving DecidableEq

/-- Collaborator oracles (spec §6): codebase storage, file system, git, the
formatting and substitution helpers, the AI backend, and the platform sender.
`sendFails t` models `platform.sendMessage` throwing on text `t`. -/
structure Env where
  getCodebase : String → Option Codebase
  findCodebaseByPath : String → Option Codebase
  readCommandFile : String → String → Except String String
  readFileAbs : String → Except String String
  writeFileAbs : String → String → Except String Unit
  substituteVariables : String → List String → String
  formatToolCall : String → Option String → String
  sendQuery : String → String → Option String → BackendStream
  sendFails : String → Bool
  cloneExec : String → Except String Unit
  gitSafeDir : String → Except String Unit
  accessOk : String → Bool
  createCodebase : String → Option String → String → String → Codebase
  findMarkdownFiles : String → Except String (List (String × String))
  readdirWorkspace : Except String (List String)
  ghToken : Option String

/-!
## Command handler (src/handlers/command-handler.ts, `handleCommand`)

Each `case` of the switch is embedded; filesystem, git and the codebase
database are collaborator oracles in `Env`.  Only the session table is mutable
state, so each branch returns the `CommandResult` plus the updated store.
-/

/-- The `/help` text. -/
def helpText : String :=
  "Available Commands:\n\nCommand Management:\n  /command-set <name> <path> [text] - Register command\n  /load-commands <folder> - Bulk load (recursive)\n  /command-invoke <name> [args] - Execute\n  /commands - List registered\n  Note: Commands use relative paths (e.g., .claude/commands)\n\nCodebase:\n  /clone <repo-url> - Clone repository\n  /repos - List workspace repositories\n  /getcwd - Show working directory\n  /setcwd <path> - Set directory\n  Note: Codebases use full paths (e.g., /workspace/repo-name)\n\nSession:\n  /status - Show state\n  /reset - Clear session\n  /help - Show help"

/-- The `/status` message assembly. -/
def statusMessage (env : Env) (conversation : Conversation) (st : SessionStore) : String :=
  let base := "Platform: " ++ conversation.platform_type ++
    "\nAI Assistant: " ++ conversation.ai_assistant_type
  let base :=
    match conversation.codebase_id with
    | some codebaseId =>
      match env.getCodebase codebaseId with
      | some cb =>
        if cb.name != "" then
          let m := base ++ "\n\nCodebase: " ++ cb.name
          match cb.repository_url with
          | some url => if url != "" then m ++ "\nRepository: " ++ url else m
          | none => m
        else base
      | none => base
    | none => base ++ "\n\nNo codebase configured. Use /clone <repo-url> to get started."
  let base := base ++ "\n\nCurrent Working Directory: " ++ conversation.cwd.getD "Not set"
  match getActiveSession st conversation.id with
  | some s =>
    if s.id != "" then base ++ "\nActive Session: " ++ String.mk (s.id.data.take 8) ++ "..."
    else base
  | none => base

/-- The `/setcwd` branch: link a codebase when one matches the new path, reset
the active session.  The `updateConversation` write and the ignored
`git config --global --add safe.directory` attempt touch no session state. -/
def setcwdCommand (env : Env) (conversation : Conversation) (args : List String)
    (st : SessionStore) : CommandResult × SessionStore :=
  match args with
  | [] => (⟨false, "Usage: /setcwd <path>", false⟩, st)
  | _ =>
    let newCwd := String.intercalate " " args
    let existingCodebase := env.findCodebaseByPath newCwd
    let st' :=
      match getActiveSession st conversation.id with
      | some s => deactivateSession st s.id
      | none => st
    let msg := "Working directory set to: " ++ newCwd ++
      "\n\nSession reset - starting fresh on next message."
    let msg :=
      match existingCodebase with
      | some cb => msg ++ "\n\nCodebase linked: " ++ cb.name
      | none => msg
    (⟨true, msg, true⟩, st')

/-- The `/clone` branch: normalize the repository URL, run the (possibly
authenticated) clone, register the codebase, reset the active session, detect a
command folder. -/
def cloneCommand (env : Env) (conversation : Conversation) (args : List String)
    (st : SessionStore) : CommandResult × SessionStore :=
  let usage : CommandResult := ⟨false, "Usage: /clone <repo-url> or /clone <owner/repo>", false⟩
  match args with
  | [] => (usage, st)
  | arg0 :: _ =>
    if arg0 == "" then (usage, st)
    else
      let repoUrl :=
        if strStarts arg0 "<" && listEnds '>' arg0.data then
          String.mk ((arg0.data.drop 1).dropLast)
        else arg0
      let repoUrl :=
        if !(strIn repoUrl "://") && !(strIn repoUrl "github.com") && strIn repoUrl "/" then
          "https://github.com/" ++ repoUrl ++ ".git"
        else repoUrl
      let lastSeg := (splitChar '/' repoUrl.data).getLastD []
      let repoName :=
        let rn := String.mk (replaceFirst ".git".data [] lastSeg)
        if rn == "" then "unknown" else rn
      let targetPath := "/workspace/" ++ repoName
      let cloneCommandStr :=
        match env.ghToken with
        | some tok =>
          if strIn repoUrl "github.com" then
            let authenticatedUrl :=
              if strStarts repoUrl "https://github.com" then
                String.mk (replaceFirst "https://github.com".data
                  ("https://" ++ tok ++ "@github.com").data repoUrl.data)
              else if strStarts repoUrl "http://github.com" then
                String.mk (replaceFirst "http://github.com".data
                  ("https://" ++ tok ++ "@github.com").data repoUrl.data)
              else repoUrl
            "git clone \"" ++ authenticatedUrl ++ "\" \"" ++ targetPath ++ "\""
          else "git clone \"" ++ repoUrl ++ "\" \"" ++ targetPath ++ "\""
        | none => "git clone \"" ++ repoUrl ++ "\" \"" ++ targetPath ++ "\""
      match env.cloneExec cloneCommandStr with
      | .error e => (⟨false, "Failed to clone repository: " ++ e, false⟩, st)
      | .ok _ =>
        match env.gitSafeDir targetPath with
        | .error e => (⟨false, "Failed to clone repository: " ++ e, false⟩, st)
        | .ok _ =>
          let suggestedAssistant :=
            if env.accessOk (targetPath ++ "/.codex") then "codex" else "claude"
          let _cb := env.createCodebase repoName (some repoUrl) targetPath suggestedAssistant
          -- updateConversation links codebase id and cwd (conversation record write)
          let st' :=
            match getActiveSession st conversation.id with
            | some s => deactivateSession st s.id
            | none => st
          let commandFolder :=
            if env.accessOk (targetPath ++ "/" ++ ".claude/commands") then some ".claude/commands"
            else if env.accessOk (targetPath ++ "/" ++ ".agents/commands") then
              some ".agents/commands"
            else none
          let responseMessage := "Repository cloned successfully!\n\nCodebase: " ++ repoName ++
            "\nPath: " ++ targetPath ++
            "\n\nSession reset - starting fresh on next message." ++
            "\n\nYou can now start asking questions about the code."
          let responseMessage :=
            match commandFolder with
            | some folder => responseMessage ++ "\n\nüìÅ Found: " ++ folder ++
                "/\nUse /load-commands " ++ folder ++ " to register commands."
            | none => responseMessage
          (⟨true, responseMessage, true⟩, st')

/-- The `/command-set` branch (writes or validates the command file, registers
the command in the codebase record; no session state touched). -/
def commandSetCommand (env : Env) (conversation : Conversation) (args : List String)
    (st : SessionStore) : CommandResult × SessionStore :=
  match args with
  | [] => (⟨false, "Usage: /command-set <name> <path> [text]", false⟩, st)
  | [_] => (⟨false, "Usage: /command-set <name> <path> [text]", false⟩, st)
  | commandName :: commandPath :: textParts =>
    match conversation.codebase_id with
    | none => (⟨false, "No codebase configured. Use /clone first.", false⟩, st)
    | some _ =>
      let commandText := String.intercalate " " textParts
      let fullPath := (conversation.cwd.getD "/workspace") ++ "/" ++ commandPath
      let fileRes :=
        if commandText != "" then env.writeFileAbs fullPath commandText
        else (env.readFileAbs fullPath).map (fun _ => ())
      match fileRes with
      | .error e => (⟨false, "Failed: " ++ e, false⟩, st)
      | .ok _ =>
        -- registerCommand persists the mapping on the codebase record
        (⟨true, "Command " ++ sq ++ commandName ++ sq ++ " registered!\nPath: " ++ commandPath,
          false⟩, st)

/-- The `/load-commands` branch (recursive markdown discovery through the
filesystem oracle; registers commands on the codebase record). -/
def loadCommandsCommand (env : Env) (conversation : Conversation) (args : List String)
    (st : SessionStore) : CommandResult × SessionStore :=
  match args with
  | [] => (⟨false, "Usage: /load-commands <folder>", false⟩, st)
  | _ =>
    match conversation.codebase_id with
    | none => (⟨false, "No codebase configured.", false⟩, st)
    | some _ =>
      let folderPath := String.intercalate " " args
      let fullPath := (conversation.cwd.getD "/workspace") ++ "/" ++ folderPath
      match env.findMarkdownFiles fullPath with
      | .error e => (⟨false, "Failed: " ++ e, false⟩, st)
      | .ok [] =>
        (⟨false, "No .md files found in " ++ folderPath ++ " (searched recursively)", false⟩, st)
      | .ok files =>
        -- updateCodebaseCommands persists the merged mapping
        (⟨true, "Loaded " ++ toString files.length ++ " commands recursively: " ++
          String.intercalate ", " (files.map Prod.fst), false⟩, st)

/-- The `/commands` branch. -/
def commandsCommand (env : Env) (conversation : Conversation) (st : SessionStore) :
    CommandResult × SessionStore :=
  match conversation.codebase_id with
  | none => (⟨false, "No codebase configured.", false⟩, st)
  | some codebaseId =>
    let cmds :=
      match env.getCodebase codebaseId with
      | some cb => cb.commands
      | none => []
    match cmds with
    | [] => (⟨true, "No commands registered.\n\nUse /command-set or /load-commands.", false⟩, st)
    | _ =>
      let body := cmds.foldl
        (fun acc p => acc ++ p.1 ++ " - " ++ p.2.path ++ "\n") "Registered Commands:\n\n"
      (⟨true, body, false⟩, st)

/-- The `/repos` branch. -/
def reposCommand (env : Env) (conversation : Conversation) (st : SessionStore) :
    CommandResult × SessionStore :=
  match env.readdirWorkspace with
  | .error e => (⟨false, "Failed to list repositories: " ++ e, false⟩, st)
  | .ok [] => (⟨true, "No repositories found in /workspace", false⟩, st)
  | .ok folders =>
    let currentCwd := conversation.cwd.getD ""
    let body := folders.foldl
      (fun acc folder =>
        let folderPath := "/workspace/" ++ folder
        acc ++ folderPath ++ (if strStarts currentCwd folderPath then " [active]" else "") ++ "\n")
      "Workspace Repositories:\n\n"
    (⟨true, body, false⟩, st)

/-- The `/reset` branch. -/
def resetCommand (conversation : Conversation) (st : SessionStore) :
    CommandResult × SessionStore :=
  match getActiveSession st conversation.id with
  | some s =>
    (⟨true,
      "Session cleared. Starting fresh on next message.\n\nCodebase configuration preserved.",
      false⟩, deactivateSession st s.id)
  | none => (⟨true, "No active session to reset.", false⟩, st)

/-- `handleCommand`: parse, then dispatch on the command name exactly as the
source switch does. -/
def handleCommand (env : Env) (conversation : Conversation) (message : String)
    (st : SessionStore) : CommandResult × SessionStore :=
  let parsed := parseCommand message
  let command := parsed.command
  let args := parsed.args
  if command == "help" then (⟨true, helpText, false⟩, st)
  else if command == "status" then (⟨true, statusMessage env conversation st, false⟩, st)
  else if command == "getcwd" then
    (⟨true, "Current working directory: " ++ conversation.cwd.getD "Not set", false⟩, st)
  else if command == "setcwd" then setcwdCommand env conversation args st
  else if command == "clone" then cloneCommand env conversation args st
  else if command == "command-set" then commandSetCommand env conversation args st
  else if command == "load-commands" then loadCommandsCommand env conversation args st
  else if command == "commands" then commandsCommand env conversation st
  else if command == "repos" then reposCommand env conversation st
  else if command == "reset" then resetCommand conversation st
  else (⟨false, "Unknown command: /" ++ command ++ "\n\nType /help to see available commands.",
    false⟩, st)

/-!
## Orchestrator (src/orchestrator/orchestrator.ts, `handleMessage`)
-/

/-- Observable outcome of a call: final session store, emitted actions in order,
and whether the returned promise resolved (`ok`) or rejected (`error`). -/
structure Out where
  store : SessionStore
  actions : List Action
  result : Except String Unit

/-- `platform.sendMessage` followed by `return`: the send either succeeds or
throws. -/
def sendTo (env : Env) (st : SessionStore) (text : String) : Out :=
  if env.sendFails text then ⟨st, [], .error "send-failed"⟩
  else ⟨st, [.send text], .ok ()⟩

/-- Stream-mode chunk loop (orchestrator lines 187-204): forward assistant text
and formatted tool calls immediately, persist backend session tokens. -/
def streamLoop (env : Env) (sessionId : String) : List Chunk → SessionStore → Out
  | [], st => ⟨st, [], .ok ()⟩
  | c :: rest, st =>
    if c.type == CType.assistant && truthy c.content then
      let text := c.content.getD ""
      if env.sendFails text then ⟨st, [], .error "send-failed"⟩
      else
        let o := streamLoop env sessionId rest st
        ⟨o.store, .send text :: o.actions, o.result⟩
    else if c.type == CType.tool && truthy c.toolName then
      let text := env.formatToolCall (c.toolName.getD "") c.toolInput
      if env.sendFails text then ⟨st, [], .error "send-failed"⟩
      else
        let o := streamLoop env sessionId rest st
        ⟨o.store, .send text :: o.actions, o.result⟩
    else if c.type == CType.result && truthy c.sessionId then
      let tok := c.sessionId.getD ""
      let o := streamLoop env sessionId rest (updateSession st sessionId tok)
      ⟨o.store, .storedBackendToken sessionId tok :: o.actions, o.result⟩
    else streamLoop env sessionId rest st

/-- Batch-mode chunk loop (orchestrator lines 210-226): buffer assistant texts,
persist backend session tokens, forward nothing.  (The `allChunks` array only
feeds `console.log` and is not embedded.) -/
def batchLoop (sessionId : String) : List Chunk → SessionStore →
    SessionStore × List Action × List String
  | [], st => (st, [], [])
  | c :: rest, st =>
    if c.type == CType.assistant && truthy c.content then
      let r := batchLoop sessionId rest st
      (r.1, r.2.1, (c.content.getD "") :: r.2.2)
    else if c.type == CType.tool && truthy c.toolName then
      batchLoop sessionId rest st
    else if c.type == CType.result && truthy c.sessionId then
      let tok := c.sessionId.getD ""
      let r := batchLoop sessionId rest (updateSession st sessionId tok)
      (r.1, .storedBackendToken sessionId tok :: r.2.1, r.2.2)
    else batchLoop sessionId rest st

/-- The fixed tool-indicator glyphs of the batch-mode filter
(🔧 💭 📝 ✏️ 🗑️ 📂 🔍, the two middle ones with variation selectors). -/
def toolIndicators : List (List Char) :=
  [[Char.ofNat 0x1F527], [Char.ofNat 0x1F4AD], [Char.ofNat 0x1F4DD],
   [Char.ofNat 0x270F, Char.ofNat 0xFE0F], [Char.ofNat 0x1F5D1, Char.ofNat 0xFE0F],
   [Char.ofNat 0x1F4C2], [Char.ofNat 0x1F50D]]

/-- Does `toolIndicatorRegex.exec(trimmed)` match at the start? -/
def startsToolIndicator (cs : List Char) : Bool :=
  toolIndicators.any (fun g => listStarts g cs)

/-- Batch-mode final-message computation (orchestrator lines 235-263): split the
last assistant chunk at blank lines, drop sections whose trimmed text starts
with a tool indicator, rejoin and trim; fall back to the last chunk when the
result is empty; send nothing when no assistant chunk exists. -/
def batchFinalMessage (assistantMessages : List String) : Option String :=
  match assistantMessages.getLast? with
  | none => none
  | some lastMessage =>
    let sections := splitNN lastMessage.data
    let cleanSections := sections.filter (fun s => !(startsToolIndicator (jsTrim s)))
    let fm := jsTrim (joinNN cleanSections)
    let fm := if fm.isEmpty then lastMessage.data else fm
    if fm.isEmpty then none else some (String.mk fm)

/-- A backend error thrown after the last yielded chunk propagates once the
loop has consumed the yielded chunks. -/
def afterStream (o : Out) (err : Option String) : Out :=
  match o.result, err with
  | .ok _, some e => ⟨o.store, o.actions, .error e⟩
  | _, _ => o

/-- The stream-mode arm of the delivery `if` (orchestrator lines 187-204): run
the per-chunk loop; a backend error thrown after the last yielded chunk
propagates. -/
def streamPhase (env : Env) (sessionId : String) (chunks : List Chunk) (err : Option String)
    (st : SessionStore) : Out :=
  afterStream (streamLoop env sessionId chunks st) err

/-- After buffering: propagate a backend error, otherwise send the one
filtered final message, if any. -/
def afterBatch (env : Env) (r : SessionStore × List Action × List String)
    (err : Option String) : Out :=
  match err with
  | some e => ⟨r.1, r.2.1, .error e⟩
  | none =>
    match batchFinalMessage r.2.2 with
    | none => ⟨r.1, r.2.1, .ok ()⟩
    | some m =>
      if env.sendFails m then ⟨r.1, r.2.1, .error "send-failed"⟩
      else ⟨r.1, r.2.1 ++ [.send m], .ok ()⟩

/-- The batch-mode arm (orchestrator lines 205-263): buffer, then send the one
filtered final message, if any. -/
def batchPhase (env : Env) (sessionId : String) (chunks : List Chunk) (err : Option String)
    (st : SessionStore) : Out :=
  afterBatch env (batchLoop sessionId chunks st) err

/-- The session decision (orchestrator lines 151-181): forced plan-to-execute
rotation, create when none is active, resume otherwise.  Returns the updated
store, the emitted session actions, and the session that will be driven. -/
def sessionArm (conversation : Conversation) (commandName : Option String)
    (st : SessionStore) : SessionStore × List Action × Session :=
  let session := getActiveSession st conversation.id
  let needsNewSession := commandName == some "execute" &&
    (session.bind Session.lastCommand) == some "plan-feature"
  if needsNewSession then
    let p :=
      match session with
      | some s => (deactivateSession st s.id, [Action.deactivatedSession s.id])
      | none => (st, [])
    let c := createSession p.1 conversation.id conversation.codebase_id
      conversation.ai_assistant_type
    (c.1, p.2 ++ [Action.createdSession c.2.id], c.2)
  else
    match session with
    | none =>
      let c := createSession st conversation.id conversation.codebase_id
        conversation.ai_assistant_type
      (c.1, [Action.createdSession c.2.id], c.2)
    | some s => (st, [], s)

/-- The post-stream metadata write (orchestrator lines 266-269): after a
successful stream of an invoked command, record its name as last command. -/
def metaArm (o : Out) (sessionId : String) (commandName : Option String) : Out :=
  match o.result, commandName with
  | .ok _, some name =>
    ⟨updateSessionMetadata o.store sessionId name,
     o.actions ++ [.storedLastCommand sessionId name], .ok ()⟩
  | _, _ => o

/-- Session selection, backend query and stream reconciliation (orchestrator
lines 151-269): forced plan-to-execute rotation, create-or-resume, the two
delivery policies, and the final `lastCommand` metadata write. -/
def runAI (env : Env) (mode : Mode) (conversation : Conversation) (promptToSend : String)
    (commandName : Option String) (st : SessionStore) : Out :=
  let codebase := conversation.codebase_id.bind env.getCodebase
  let cwd := conversation.cwd.getD ((codebase.map Codebase.default_cwd).getD "/workspace")
  let sa := sessionArm conversation commandName st
  let sess := sa.2.2
  let stream := env.sendQuery promptToSend cwd sess.assistant_session_id
  let streamOut : Out :=
    match mode with
    | .stream => streamPhase env sess.id stream.chunks stream.err sa.1
    | .batch => batchPhase env sess.id stream.chunks stream.err sa.1
  let afterMeta : Out := metaArm streamOut sess.id commandName
  ⟨afterMeta.store,
   sa.2.1 ++ [.backendQuery promptToSend cwd sess.assistant_session_id] ++ afterMeta.actions,
   afterMeta.result⟩

/-- The body of `handleMessage` inside its top-level `try` (after command
normalization): slash-command delegation, `/command-invoke` resolution, the
codebase guard for freeform prompts, then the AI path. -/
def handleBody (env : Env) (mode : Mode) (conversation : Conversation) (message : String)
    (issueContext : Option String) (st : SessionStore) : Out :=
  if strStarts message "/" then
    if !(strStarts message "/command-invoke") then
      let (res, st') := handleCommand env conversation message st
      -- when `res.modified` the conversation record is reloaded (db read only)
      sendTo env st' res.message
    else
      -- /command-invoke falls through to AI handling
      let parsed := parseCommand message
      match parsed.args with
      | [] => sendTo env st "Usage: /command-invoke <name> [args...]"
      | commandName :: args =>
        match conversation.codebase_id with
        | none => sendTo env st "No codebase configured. Use /clone first."
        | some codebaseId =>
          match env.getCodebase codebaseId with
          | none => sendTo env st "Codebase not found."
          | some codebase =>
            match lookupCmd codebase.commands commandName with
            | none => sendTo env st
                ("Command " ++ sq ++ commandName ++ sq ++ " not found. Use /commands to see available.")
            | some commandDef =>
              let cwd := conversation.cwd.getD codebase.default_cwd
              match env.readCommandFile cwd commandDef.path with
              | .error e => sendTo env st ("Failed to read command file: " ++ e)
              | .ok commandText =>
                let promptToSend := env.substituteVariables commandText args
                let promptToSend :=
                  match issueContext with
                  | some ctx => promptToSend ++ "\n\n---\n\n" ++ ctx
                  | none => promptToSend
                runAI env mode conversation promptToSend (some commandName) st
  else
    match conversation.codebase_id with
    | none => sendTo env st "No codebase configured. Use /clone first."
    | some _ => runAI env mode conversation message none st

/-- The generic recoverable-error notice of the top-level catch. -/
def errNotice : String := "⚠️ An error occurred. Try /reset to start a fresh session."

/-- `handleMessage`: normalize, run the body, and on any thrown error send the
generic notice from the catch block; if that very send throws, the returned
promise rejects. -/
def handleMessage (env : Env) (mode : Mode) (conversation : Conversation) (message : String)
    (issueContext : Option String) (st : SessionStore) : Out :=
  let msg := normalizeCommand message
  let body := handleBody env mode conversation msg issueContext st
  match body.result with
  | .ok _ => body
  | .error e =>
    if env.sendFails errNotice then ⟨body.store, body.actions, .error e⟩
    else ⟨body.store, body.actions ++ [.send errNotice], .ok ()⟩

/-!
## Claim-side specifications, invariants and witness fixtures
-/

/-- Claim-side description of immediate (stream) mode: per produced chunk, an
assistant-text chunk with content is forwarded, a tool chunk with a name is
formatted and forwarded, and a result chunk with a token persists the token;
nothing else happens, in stream order. -/
def streamSpec (env : Env) (sessionId : String) (chunks : List Chunk) : List Action :=
  chunks.filterMap (fun c =>
    if c.type == CType.assistant && truthy c.content then
      some (.send (c.content.getD ""))
    else if c.type == CType.tool && truthy c.toolName then
      some (.send (env.formatToolCall (c.toolName.getD "") c.toolInput))
    else if c.type == CType.result && truthy c.sessionId then
      some (.storedBackendToken sessionId (c.sessionId.getD ""))
    else none)

/-- The last backend session token reported by the result chunks, if any. -/
def lastResultToken (chunks : List Chunk) : Option String :=
  (chunks.filterMap (fun c =>
    if c.type == CType.result && truthy c.sessionId then some (c.sessionId.getD "")
    else none)).getLast?

/-- Apply the last reported backend token to the session, if one was reported. -/
def applyLastToken (st : SessionStore) (sessionId : String) : Option String → SessionStore
  | none => st
  | some t => updateSession st sessionId t

/-- The assistant texts a chunk stream contributes, in order (claim-side). -/
def assistantTexts (chunks : List Chunk) : List String :=
  chunks.filterMap (fun c =>
    if c.type == CType.assistant && truthy c.content then some (c.content.getD "") else none)

/-- Claim-side description (C4 as amended) of the deduplicated-summary choice:
take the last assistant chunk, drop blank-line-separated sections whose trimmed
text begins with a tool indicator, rejoin and trim surrounding whitespace; when
the trimmed rejoin is empty (in particular when filtering removed every
section) the original last chunk is used verbatim; with no assistant chunk
nothing is sent. -/
def batchSpec (assistantMessages : List String) : Option String :=
  match assistantMessages.getLast? with
  | none => none
  | some lastMessage =>
    let kept := (splitNN lastMessage.data).filter (fun s => !(startsToolIndicator (jsTrim s)))
    let joined := jsTrim (joinNN kept)
    some (if joined.isEmpty then lastMessage else String.mk joined)

/-- The send actions among a list of actions. -/
def sendsOf (acts : List Action) : List Action :=
  acts.filter (fun a => match a with | .send _ => true | _ => false)

/-- `s` is the active session of `conversationId`. -/
def activeFor (conversationId : String) (s : Session) : Bool :=
  s.conversation_id == conversationId && s.active

/-- The invariant of claim C3: at most one active session per conversation. -/
def AtMostOneActive (st : SessionStore) : Prop :=
  ∀ conversationId, st.sessions.countP (activeFor conversationId) ≤ 1

/-- Benign witness environment: every send succeeds, every lookup is empty. -/
def envOk : Env where
  getCodebase := fun _ => none
  findCodebaseByPath := fun _ => none
  readCommandFile := fun _ _ => .error "no file"
  readFileAbs := fun _ => .error "no file"
  writeFileAbs := fun _ _ => .ok ()
  substituteVariables := fun t _ => t
  formatToolCall := fun n _ => "Tool: " ++ n
  sendQuery := fun _ _ _ => ⟨[], none⟩
  sendFails := fun _ => false
  cloneExec := fun _ => .ok ()
  gitSafeDir := fun _ => .ok ()
  accessOk := fun _ => false
  createCodebase := fun n u c a => ⟨"cb-1", n, u, c, a, []⟩
  findMarkdownFiles := fun _ => .ok []
  readdirWorkspace := .ok []
  ghToken := none

/-- Witness codebase with a registered `execute` command. -/
def cbExec : Codebase :=
  ⟨"cb-1", "repo", none, "/workspace/repo", "claude",
   [("execute", ⟨"cmds/execute.md", "d"⟩)]⟩

/-- Witness environment that resolves `cb-1` to `cbExec` and reads command
files successfully. -/
def envExec : Env :=
  { envOk with
    getCodebase := fun i => if i == "cb-1" then some cbExec else none
    readCommandFile := fun _ _ => .ok "do it" }

/-- Witness environment whose backend yields one assistant chunk ending in a
space. -/
def envBatchCx : Env :=
  { envExec with
    sendQuery := fun _ _ _ => ⟨[⟨CType.assistant, some "hello ", none, none, none⟩], none⟩ }

/-- Witness environment where every platform send throws. -/
def envFail : Env := { envOk with sendFails := fun _ => true }

/-- Witness conversation with no linked codebase. -/
def convNoCb : Conversation := ⟨"conv-1", "test", none, none, "claude"⟩

/-- Witness conversation linked to `cb-1`. -/
def convCb : Conversation := ⟨"conv-1", "test", some "cb-1", none, "claude"⟩

/-- Empty witness session store. -/
def stEmpty : SessionStore := ⟨[], 0⟩

/-- Witness session whose metadata records the planning command. -/
def sessPlan : Session :=
  ⟨"session-0", "conv-1", some "cb-1", "claude", some "tok-1", some "plan-feature", true⟩

/-- Witness store holding the active planning session. -/
def stPlan : SessionStore := ⟨[sessPlan], 1⟩

/-- Witness chunk stream: three assistant chunks and one tool chunk. -/
def chunks31 : List Chunk :=
  [⟨CType.assistant, some "a1", none, none, none⟩,
   ⟨CType.assistant, some "a2", none, none, none⟩,
   ⟨CType.assistant, some "a3", none, none, none⟩,
   ⟨CType.tool, none, none, some "Read", some "f.txt"⟩]

/-- The two-paragraph witness chunk text: a wrench-glyph tool line, a blank
line, then the summary paragraph. -/
def toolThenSummary : String :=
  String.mk (Char.ofNat 0x1F527 :: (" using tool\n\nDone!").data)

/-!
## Admission controller (ConversationLockManager)

Modelled from the spec: the `ConversationLockManager` implementation
(src/utils/conversation-lock.ts) is not under src/; only its caller
src/index.ts is.  Spec §4.1/§9: submissions are numbered by arrival; each key
holds a chain (tail future), a new submission chains off the previous tail for
its key, then acquires one of `maxConcurrent` global semaphore permits, runs
its work, and releases the permit.  We model the controller's possible
schedules as traces of begin/finish events: job `j` (with key `keys[j]`) may
begin only if it has not begun yet, its nearest same-key predecessor (if any)
has finished, and fewer than `maxConcurrent` jobs are running.
-/

namespace LockModel

/-- A scheduling event: job `j` begins executing its unit of work, or
finishes it. -/
inductive LEvent where
  | exec (j : Nat)
  | fin (j : Nat)
deriving DecidableEq

/-- Job `j` has begun in trace `tr`. -/
def isStarted (tr : List LEvent) (j : Nat) : Bool :=
  tr.any (fun e => e == LEvent.exec j)

/-- Job `j` has finished in trace `tr`. -/
def isDone (tr : List LEvent) (j : Nat) : Bool :=
  tr.any (fun e => e == LEvent.fin j)

/-- Job `j` is currently executing (its lifetime covers this instant). -/
def isRun (tr : List LEvent) (j : Nat) : Bool :=
  isStarted tr j && !(isDone tr j)

/-- Number of currently executing jobs among `0..n-1`. -/
def runningCount (n : Nat) (tr : List LEvent) : Nat :=
  (List.range n).countP (fun j => isRun tr j)

/-- Index of the nearest earlier submission with the same key, if any
(the tail of the key's chain at submission time). -/
def prevSame (keys : List String) (kj : Option String) : Nat → Option Nat
  | 0 => none
  | i + 1 => if keys.get? i == kj then some i else prevSame keys kj i

/-- Which events the controller can let happen after trace `tr`: begin events
wait for the same-key predecessor and a free global permit; finish events
require the job to be running. -/
def enabled (maxC : Nat) (keys : List String) (tr : List LEvent) : LEvent → Bool
  | .exec j =>
    decide (j < keys.length) && !(isStarted tr j) &&
    (match prevSame keys (keys.get? j) j with
     | none => true
     | some i => isDone tr i) &&
    decide (runningCount keys.length tr < maxC)
  | .fin j => isRun tr j

/-- `validFrom maxC keys pre rest`: every event of `rest` is enabled at its
position when run after the prefix `pre`. -/
def validFrom (maxC : Nat) (keys : List String) : List LEvent → List LEvent → Bool
  | _, [] => true
  | pre, e :: rest => enabled maxC keys pre e && validFrom maxC keys (pre ++ [e]) rest

/-- A trace the admission controller can produce. -/
def validTrace (maxC : Nat) (keys : List String) (tr : List LEvent) : Bool :=
  validFrom maxC keys [] tr

/-- The controller's chain invariant: finished jobs have begun, and a begun job
has outlived every earlier submission with the same key. -/
def TraceInv (keys : List String) (tr : List LEvent) : Prop :=
  (∀ j, isDone tr j = true → isStarted tr j = true) ∧
  (∀ j i, isStarted tr j = true → i < j → keys.get? i = keys.get? j → isDone tr i = true)

lemma isStarted_append (pre : List LEvent) (e : LEvent) (j : Nat) :
    isStarted (pre ++ [e]) j = (isStarted pre j || e == LEvent.exec j) := by
  simp [isStarted]

lemma isDone_append (pre : List LEvent) (e : LEvent) (j : Nat) :
    isDone (pre ++ [e]) j = (isDone pre j || e == LEvent.fin j) := by
  simp [isDone]

lemma prevSame_none_spec (keys : List String) (kj : Option String) :
    ∀ j, prevSame keys kj j = none → ∀ i, i < j → ¬(keys.get? i = kj) := by
  intro j
  induction j with
  | zero => intro _ i hi; omega
  | succ n ih =>
    intro h i hi
    rw [prevSame] at h
    split at h
    · exact absurd h (by simp)
    · rcases Nat.lt_succ_iff_lt_or_eq.mp hi with h2 | h2
      · exact ih h i h2
      · subst h2
        intro hk
        simp_all

lemma prevSame_some_spec (keys : List String) (kj : Option String) :
    ∀ j i₀, prevSame keys kj j = some i₀ →
      i₀ < j ∧ keys.get? i₀ = kj ∧ ∀ i, i₀ < i → i < j → ¬(keys.get? i = kj) := by
  intro j
  induction j with
  | zero => intro i₀ h; rw [prevSame] at h; exact absurd h (by simp)
  | succ n ih =>
    intro i₀ h
    rw [prevSame] at h
    split at h
    · rename_i hc
      obtain rfl : n = i₀ := by simpa using h
      refine ⟨Nat.lt_succ_self _, by simpa using hc, ?_⟩
      intro i h1 h2
      omega
    · rename_i hc
      obtain ⟨h1, h2, h3⟩ := ih i₀ h
      refine ⟨Nat.lt_succ_of_lt h1, h2, ?_⟩
      intro i hi1 hi2
      rcases Nat.lt_succ_iff_lt_or_eq.mp hi2 with h4 | h4
      · exact h3 i hi1 h4
      · subst h4
        intro hk
        simp_all

/-- Every earlier same-key submission is finished when a begin event fires. -/
lemma earlier_done_of_enabled (maxC : Nat) (keys : List String) (pre : List LEvent) (j : Nat)
    (hinv : TraceInv keys pre) (he : enabled maxC keys pre (LEvent.exec j) = true) :
    ∀ i, i < j → keys.get? i = keys.get? j → isDone pre i = true := by
  intro i hij hkey
  rw [enabled] at he
  rw [Bool.and_eq_true, Bool.and_eq_true, Bool.and_eq_true] at he
  obtain ⟨⟨⟨_, _⟩, hm⟩, _⟩ := he
  cases hp : prevSame keys (keys.get? j) j with
  | none => exact absurd hkey (prevSame_none_spec keys _ j hp i hij)
  | some i₀ =>
    rw [hp] at hm
    obtain ⟨h1, h2, h3⟩ := prevSame_some_spec keys _ j i₀ hp
    rcases Nat.lt_trichotomy i i₀ with hlt | heq | hgt
    · exact hinv.2 i₀ i (hinv.1 i₀ hm) hlt (by rw [hkey, h2])
    · subst heq; exact hm
    · exact absurd hkey (h3 i hgt hij)

/-- One step preserves the chain invariant. -/
lemma traceInv_step (maxC : Nat) (keys : List String) (pre : List LEvent) (e : LEvent)
    (hinv : TraceInv keys pre) (he : enabled maxC keys pre e = true) :
    TraceInv keys (pre ++ [e]) := by
  cases e with
  | exec j =>
    constructor
    · intro k hk
      rw [isDone_append] at hk
      rw [isStarted_append]
      have : isDone pre k = true := by simpa using hk
      simp [hinv.1 k this]
    · intro k i hk hik hkey
      rw [isStarted_append] at hk
      rw [isDone_append]
      rw [Bool.or_eq_true] at hk
      rcases hk with h | h
      · simp [hinv.2 k i h hik hkey]
      · obtain rfl : j = k := by simpa using h
        simp [earlier_done_of_enabled maxC keys pre j hinv he i hik hkey]
  | fin j =>
    rw [enabled, isRun, Bool.and_eq_true] at he
    obtain ⟨hst, _⟩ := he
    constructor
    · intro k hk
      rw [isDone_append] at hk
      rw [isStarted_append]
      rw [Bool.or_eq_true] at hk
      rcases hk with h | h
      · simp [hinv.1 k h]
      · obtain rfl : j = k := by simpa using h
        simp [hst]
    · intro k i hk hik hkey
      rw [isStarted_append] at hk
      rw [isDone_append]
      have : isStarted pre k = true := by simpa using hk
      simp [hinv.2 k i this hik hkey]

/-- The chain invariant holds after any valid continuation. -/
lemma traceInv_of_validFrom (maxC : Nat) (keys : List String) :
    ∀ rest pre, TraceInv keys pre → validFrom maxC keys pre rest = true →
      TraceInv keys (pre ++ rest) := by
  intro rest
  induction rest with
  | nil => intro pre h _; simpa using h
  | cons e rest ih =>
    intro pre h hv
    rw [validFrom, Bool.and_eq_true] at hv
    obtain ⟨h1, h2⟩ := hv
    have := ih (pre ++ [e]) (traceInv_step maxC keys pre e h h1) h2
    simpa using this

/-- A prefix of a valid continuation is a valid continuation. -/
lemma validFrom_of_append (maxC : Nat) (keys : List String) :
    ∀ a b pre, validFrom maxC keys pre (a ++ b) = true → validFrom maxC keys pre a = true := by
  intro a
  induction a with
  | nil => intro b pre _; rfl
  | cons e a ih =>
    intro b pre h
    rw [List.cons_append, validFrom, Bool.and_eq_true] at h
    obtain ⟨h1, h2⟩ := h
    rw [validFrom, Bool.and_eq_true]
    exact ⟨h1, ih b (pre ++ [e]) h2⟩

/-- The invariant, at every prefix of a valid trace. -/
lemma traceInv_of_validTrace (maxC : Nat) (keys : List String) (tr p : List LEvent)
    (hv : validTrace maxC keys tr = true) (hpre : ∃ q, tr = p ++ q) :
    TraceInv keys p := by
  obtain ⟨q, rfl⟩ := hpre
  have hvp : validFrom maxC keys [] p = true := validFrom_of_append maxC keys p q [] hv
  have h0 : TraceInv keys ([] : List LEvent) := by
    constructor
    · intro j h; exact absurd h (by simp [isDone])
    · intro j i h; exact absurd h (by simp [isStarted])
  simpa using traceInv_of_validFrom maxC keys p [] h0 hvp

/-- C1: for every key and every valid schedule of the admission controller, in
any interleaving with other keys, two units of work submitted under the same
key never execute with overlapping lifetimes, and same-key units complete in
submission order (FIFO): at every instant (prefix of the trace), submissions
`i < j` with the same key are never both running, and `j` can only be finished
once `i` is. -/
theorem acquireLock_per_key_mutex_and_fifo (maxC : Nat) (keys : List String)
    (tr p : List LEvent) (hv : validTrace maxC keys tr = true) (hpre : ∃ q, tr = p ++ q)
    (i j : Nat) (hij : i < j) (hkey : keys.get? i = keys.get? j) :
    ¬(isRun p i = true ∧ isRun p j = true) ∧ (isDone p j = true → isDone p i = true) := by
  have hinv := traceInv_of_validTrace maxC keys tr p hv hpre
  constructor
  · rintro ⟨hri, hrj⟩
    rw [isRun, Bool.and_eq_true] at hri hrj
    have hdi : isDone p i = true := hinv.2 j i hrj.1 hij hkey
    have := hri.2
    simp [hdi] at this
  · intro hdj
    exact hinv.2 j i (hinv.1 j hdj) hij hkey

/-- Witness for C1 at a concrete schedule: two jobs under key "a" run in
sequence under a global ceiling of 1. -/
theorem acquireLock_per_key_mutex_and_fifo_witness :
    validTrace 1 ["a", "a"]
        [LEvent.exec 0, LEvent.fin 0, LEvent.exec 1, LEvent.fin 1] = true ∧
      (¬(isRun [LEvent.exec 0, LEvent.fin 0, LEvent.exec 1, LEvent.fin 1] 0 = true ∧
          isRun [LEvent.exec 0, LEvent.fin 0, LEvent.exec 1, LEvent.fin 1] 1 = true) ∧
        (isDone [LEvent.exec 0, LEvent.fin 0, LEvent.exec 1, LEvent.fin 1] 1 = true →
          isDone [LEvent.exec 0, LEvent.fin 0, LEvent.exec 1, LEvent.fin 1] 0 = true)) :=
  ⟨by decide,
   acquireLock_per_key_mutex_and_fifo 1 ["a", "a"]
     [LEvent.exec 0, LEvent.fin 0, LEvent.exec 1, LEvent.fin 1]
     [LEvent.exec 0, LEvent.fin 0, LEvent.exec 1, LEvent.fin 1]
     (by decide) ⟨[], rfl⟩ 0 1 (by decide) (by decide)⟩

end LockModel

/-!
## Claim theorems for the orchestrator and command handler
-/

/-- If a string starts with a multi-character pattern it starts with the
pattern's first character. -/
lemma listStarts_head {p : Char} {ps s : List Char} (h : listStarts (p :: ps) s = true) :
    listStarts [p] s = true := by
  cases s with
  | nil => simp [listStarts] at h
  | cons c cs =>
    rw [listStarts, Bool.and_eq_true] at h
    simp [listStarts, h.1]

/-- A message starting with `/command-invoke` starts with `/`. -/
lemma strStarts_slash_of_invoke {m : String}
    (h : strStarts m "/command-invoke" = true) : strStarts m "/" = true := by
  rw [strStarts] at h ⊢
  exact listStarts_head h

/-- C9: parsing `/command-invoke plan "multi word arg"` keeps the quoted
multi-word argument as one argument with the quotes stripped and its internal
spacing preserved. -/
theorem parseCommand_quoted_args :
    parseCommand "/command-invoke plan \"multi word arg\"" =
      ⟨"command-invoke", ["plan", "multi word arg"]⟩ := by decide

/-- C10: `parseCommand` drops the first character of the first token
unconditionally, whether or not it is `/`; in particular `clone x` parses to
command `lone`. -/
theorem parseCommand_drops_first_char :
    (∀ text tok toks, jsTokens text.data = tok :: toks →
      (parseCommand text).command = String.mk (tok.drop 1)) ∧
    parseCommand "clone x" = ⟨"lone", ["x"]⟩ := by
  constructor
  · intro text tok toks h
    rw [parseCommand]
    simp only [h]
    by_cases he : tok.isEmpty
    · rw [List.isEmpty_iff] at he
      subst he
      simp
    · simp [he]
  · decide

/-- Witness for C10 at the concrete input `clone x`. -/
theorem parseCommand_drops_first_char_witness :
    jsTokens "clone x".data = [['c', 'l', 'o', 'n', 'e'], ['x']] ∧
      (parseCommand "clone x").command = String.mk (['c', 'l', 'o', 'n', 'e'].drop 1) :=
  ⟨by decide,
   parseCommand_drops_first_char.1 "clone x" ['c', 'l', 'o', 'n', 'e'] [['x']] (by decide)⟩

/-- Counterexample to C5 as stated: when the platform send itself throws, the
top-level catch's own notice send rejects the returned promise — at the
concrete input below `handleMessage` rejects. -/
theorem handleMessage_can_reject :
    (handleMessage envFail Mode.stream convNoCb "hi" none stEmpty).result =
      Except.error "send-failed" := rfl

/-- C5 (amended): provided sending the generic recoverable-error notice itself
succeeds, `handleMessage` catches every failure raised by its body
(classification, session setup, streaming) and resolves; when the body failed,
the only extra visible effect is that single notice send. -/
theorem handleMessage_error_containment (env : Env) (mode : Mode)
    (conversation : Conversation) (message : String) (issueContext : Option String)
    (st : SessionStore) (h : env.sendFails errNotice = false) :
    (handleMessage env mode conversation message issueContext st).result = .ok () ∧
    (∀ e,
      (handleBody env mode conversation (normalizeCommand message) issueContext st).result =
        .error e →
      (handleMessage env mode conversation message issueContext st).actions =
        (handleBody env mode conversation (normalizeCommand message) issueContext st).actions ++
          [Action.send errNotice]) := by
  rw [handleMessage]
  cases hres : (handleBody env mode conversation (normalizeCommand message) issueContext st).result
  all_goals simp [hres, h]

/-- Witness for C5 (amended) at a concrete failing body: with no codebase and a
platform that drops the first send, the notice is sent and the promise
resolves. -/
theorem handleMessage_error_containment_witness :
    envOk.sendFails errNotice = false ∧
      ((handleMessage envOk Mode.stream convNoCb "hi" none stEmpty).result = .ok () ∧
        (∀ e,
          (handleBody envOk Mode.stream convNoCb (normalizeCommand "hi") none stEmpty).result =
            .error e →
          (handleMessage envOk Mode.stream convNoCb "hi" none stEmpty).actions =
            (handleBody envOk Mode.stream convNoCb (normalizeCommand "hi") none stEmpty).actions ++
              [Action.send errNotice])) :=
  ⟨rfl, handleMessage_error_containment envOk Mode.stream convNoCb "hi" none stEmpty rfl⟩

/-- Counterexample to C8 as stated: `/command-invokex` begins with `/` and is
not an invocation of `command-invoke` (its command name is `command-invokex`),
yet `handleMessage` does not delegate to the command handler — it answers with
the `/command-invoke` usage string instead of the handler's unknown-command
reply, because the source tests the raw prefix `/command-invoke`. -/
theorem slash_delegation_prefix_cx :
    strStarts "/command-invokex" "/" = true ∧
    (parseCommand "/command-invokex").command ≠ "command-invoke" ∧
    (handleMessage envOk Mode.stream convNoCb "/command-invokex" none stEmpty).actions =
      [Action.send "Usage: /command-invoke <name> [args...]"] ∧
    (handleCommand envOk convNoCb "/command-invokex" stEmpty).1.message =
      "Unknown command: /command-invokex\n\nType /help to see available commands." ∧
    ("Usage: /command-invoke <name> [args...]" : String) ≠
      "Unknown command: /command-invokex\n\nType /help to see available commands." := by
  refine ⟨by decide, by decide, by decide, by decide, by decide⟩

/-- C8 (amended): every message whose normalized text begins with `/` and does
not begin with the prefix `/command-invoke` is delegated entirely to the
command-handling collaborator; its result text is sent, and the orchestrator
itself performs no session operation and no backend query (the only emitted
action is that one send, and the store is exactly the handler's). -/
theorem slash_command_delegation (env : Env) (mode : Mode) (conversation : Conversation)
    (message : String) (issueContext : Option String) (st : SessionStore)
    (h1 : strStarts (normalizeCommand message) "/" = true)
    (h2 : strStarts (normalizeCommand message) "/command-invoke" = false)
    (hs : ∀ t, env.sendFails t = false) :
    handleMessage env mode conversation message issueContext st =
      ⟨(handleCommand env conversation (normalizeCommand message) st).2,
       [Action.send (handleCommand env conversation (normalizeCommand message) st).1.message],
       .ok ()⟩ := by
  rw [handleMessage, handleBody]
  simp [h1, h2, sendTo, hs]

/-- Witness for C8 (amended) at the concrete message `/help`. -/
theorem slash_command_delegation_witness :
    strStarts (normalizeCommand "/help") "/" = true ∧
      strStarts (normalizeCommand "/help") "/command-invoke" = false ∧
      handleMessage envOk Mode.stream convNoCb "/help" none stEmpty =
        ⟨(handleCommand envOk convNoCb (normalizeCommand "/help") stEmpty).2,
         [Action.send (handleCommand envOk convNoCb (normalizeCommand "/help") stEmpty).1.message],
         .ok ()⟩ :=
  ⟨by decide, by decide,
   slash_command_delegation envOk Mode.stream convNoCb "/help" none stEmpty
     (by decide) (by decide) (fun _ => rfl)⟩

/-- C7: a prompt-producing message (freeform, or a `/command-invoke`) on a
conversation with no linked codebase is answered with a user-visible error and
handled without creating a session and without querying the backend: the run
performs exactly one send and leaves the session store untouched. -/
theorem no_codebase_guard (env : Env) (mode : Mode) (conversation : Conversation)
    (message : String) (issueContext : Option String) (st : SessionStore)
    (hs : ∀ t, env.sendFails t = false)
    (hcb : conversation.codebase_id = none)
    (hcls : strStarts (normalizeCommand message) "/" = false ∨
      strStarts (normalizeCommand message) "/command-invoke" = true) :
    ∃ e, handleMessage env mode conversation message issueContext st =
      ⟨st, [Action.send e], .ok ()⟩ := by
  rw [handleMessage, handleBody]
  rcases hcls with h | h
  · refine ⟨"No codebase configured. Use /clone first.", ?_⟩
    simp [h, hcb, sendTo, hs]
  · have hsl := strStarts_slash_of_invoke h
    cases hargs : (parseCommand (normalizeCommand message)).args with
    | nil =>
      refine ⟨"Usage: /command-invoke <name> [args...]", ?_⟩
      simp [h, hsl, hargs, sendTo, hs]
    | cons a as =>
      refine ⟨"No codebase configured. Use /clone first.", ?_⟩
      simp [h, hsl, hargs, hcb, sendTo, hs]

/-- Mapping the token update twice keeps only the second write. -/
lemma map_update_twice (sid t t' : String) (l : List Session) :
    (l.map (fun s => if s.id == sid then { s with assistant_session_id := some t } else s)).map
        (fun s => if s.id == sid then { s with assistant_session_id := some t' } else s) =
      l.map (fun s => if s.id == sid then { s with assistant_session_id := some t' } else s) := by
  induction l with
  | nil => rfl
  | cons s rest ih =>
    simp only [List.map_cons, ih]
    by_cases h : s.id == sid <;> simp [h]

/-- Re-persisting the backend token overwrites the previous value. -/
lemma updateSession_overwrite (st : SessionStore) (sid t t' : String) :
    updateSession (updateSession st sid t) sid t' = updateSession st sid t' := by
  cases st with
  | mk sessions nextId =>
    simp only [updateSession, SessionStore.mk.injEq, and_true]
    exact map_update_twice sid t t' sessions

/-- C6: in immediate (stream) mode, the emitted effects are exactly the
claim-side per-chunk forwarding in stream order — assistant chunks with content
are sent as produced, tool chunks with a name are formatted and sent, result
chunks with a token persist it — and the final store carries the last reported
backend token; the loop raises no failure when sends succeed. -/
theorem stream_mode_forwarding (env : Env) (sessionId : String) (chunks : List Chunk)
    (st : SessionStore) (hs : ∀ t, env.sendFails t = false) :
    (streamLoop env sessionId chunks st).actions = streamSpec env sessionId chunks ∧
    (streamLoop env sessionId chunks st).store =
      applyLastToken st sessionId (lastResultToken chunks) ∧
    (streamLoop env sessionId chunks st).result = .ok () := by
  induction chunks generalizing st with
  | nil => exact ⟨rfl, rfl, rfl⟩
  | cons c rest ih =>
    rw [streamLoop]
    cases hA : (c.type == CType.assistant && truthy c.content) with
    | true =>
      have hct : c.type = CType.assistant := by
        rw [Bool.and_eq_true] at hA
        simpa using hA.1
      have hres : (c.type == CType.result && truthy c.sessionId) = false := by simp [hct]
      obtain ⟨ih1, ih2, ih3⟩ := ih st
      simp only [hA, eq_self_iff_true, if_true, hs, Bool.false_eq_true, if_false]
      refine ⟨?_, ?_, ?_⟩
      · simp only [streamSpec, List.filterMap_cons, hA, eq_self_iff_true, if_true]
        simp only [streamSpec] at ih1
        rw [ih1]
      · rw [ih2]
        have hlt : lastResultToken (c :: rest) = lastResultToken rest := by
          simp only [lastResultToken, List.filterMap_cons, hres, Bool.false_eq_true, if_false]
        rw [hlt]
      · exact ih3
    | false =>
      cases hB : (c.type == CType.tool && truthy c.toolName) with
      | true =>
        have hct : c.type = CType.tool := by
          rw [Bool.and_eq_true] at hB
          simpa using hB.1
        have hres : (c.type == CType.result && truthy c.sessionId) = false := by simp [hct]
        obtain ⟨ih1, ih2, ih3⟩ := ih st
        simp only [hA, hB, eq_self_iff_true, if_true, hs, Bool.false_eq_true, if_false]
        refine ⟨?_, ?_, ?_⟩
        · simp only [streamSpec, List.filterMap_cons, hA, hB, eq_self_iff_true, if_true,
            Bool.false_eq_true, if_false]
          simp only [streamSpec] at ih1
          rw [ih1]
        · rw [ih2]
          have hlt : lastResultToken (c :: rest) = lastResultToken rest := by
            simp only [lastResultToken, List.filterMap_cons, hres, Bool.false_eq_true, if_false]
          rw [hlt]
        · exact ih3
      | false =>
        cases hC : (c.type == CType.result && truthy c.sessionId) with
        | true =>
          obtain ⟨ih1, ih2, ih3⟩ := ih (updateSession st sessionId (c.sessionId.getD ""))
          simp only [hA, hB, hC, eq_self_iff_true, if_true, Bool.false_eq_true, if_false]
          refine ⟨?_, ?_, ?_⟩
          · simp only [streamSpec, List.filterMap_cons, hA, hB, hC, eq_self_iff_true, if_true,
              Bool.false_eq_true, if_false]
            simp only [streamSpec] at ih1
            rw [ih1]
          · rw [ih2]
            simp only [lastResultToken, List.filterMap_cons, hC, eq_self_iff_true, if_true]
            cases hl : (List.filterMap (fun c =>
                if c.type == CType.result && truthy c.sessionId then some (c.sessionId.getD "")
                else none) rest) with
            | nil => simp [lastResultToken, applyLastToken]
            | cons x xs =>
              rw [List.getLast?_cons_cons]
              cases hg : (x :: xs).getLast? with
              | none => simp [List.getLast?_eq_none_iff] at hg
              | some t' => simp [applyLastToken, updateSession_overwrite]
          · exact ih3
        | false =>
          obtain ⟨ih1, ih2, ih3⟩ := ih st
          simp only [hA, hB, hC, Bool.false_eq_true, if_false]
          refine ⟨?_, ?_, ?_⟩
          · simp only [streamSpec, List.filterMap_cons, hA, hB, hC, Bool.false_eq_true, if_false]
            simp only [streamSpec] at ih1
            rw [ih1]
          · rw [ih2]
            have hlt : lastResultToken (c :: rest) = lastResultToken rest := by
              simp only [lastResultToken, List.filterMap_cons, hC, Bool.false_eq_true, if_false]
            rw [hlt]
          · exact ih3

/-- Witness for C6: a stream of three assistant chunks and one tool chunk
yields exactly four sends, in stream order. -/
theorem stream_mode_forwarding_witness :
    (∀ t, envOk.sendFails t = false) ∧
      ((streamLoop envOk "session-0" chunks31 stEmpty).actions =
          streamSpec envOk "session-0" chunks31 ∧
        (streamLoop envOk "session-0" chunks31 stEmpty).store =
          applyLastToken stEmpty "session-0" (lastResultToken chunks31) ∧
        (streamLoop envOk "session-0" chunks31 stEmpty).result = .ok ()) ∧
      streamSpec envOk "session-0" chunks31 =
        [Action.send "a1", Action.send "a2", Action.send "a3", Action.send "Tool: Read"] :=
  ⟨fun _ => rfl,
   stream_mode_forwarding envOk "session-0" chunks31 stEmpty (fun _ => rfl),
   by decide⟩

/-- The batch loop buffers exactly the assistant texts, in order. -/
lemma batchLoop_msgs (sessionId : String) (chunks : List Chunk) (st : SessionStore) :
    (batchLoop sessionId chunks st).2.2 = assistantTexts chunks := by
  induction chunks generalizing st with
  | nil => rfl
  | cons c rest ih =>
    rw [batchLoop]
    cases hA : (c.type == CType.assistant && truthy c.content) with
    | true =>
      simp only [hA, eq_self_iff_true, if_true, assistantTexts, List.filterMap_cons]
      simp only [assistantTexts] at ih
      simp [hA, ih st]
    | false =>
      cases hB : (c.type == CType.tool && truthy c.toolName) with
      | true =>
        simp only [hA, hB, eq_self_iff_true, if_true, Bool.false_eq_true, if_false,
          assistantTexts, List.filterMap_cons]
        simp only [assistantTexts] at ih
        simp [hA, ih st]
      | false =>
        cases hC : (c.type == CType.result && truthy c.sessionId) with
        | true =>
          simp only [hA, hB, hC, eq_self_iff_true, if_true, Bool.false_eq_true, if_false,
            assistantTexts, List.filterMap_cons]
          simp only [assistantTexts] at ih
          simp [hA, ih]
        | false =>
          simp only [hA, hB, hC, Bool.false_eq_true, if_false, assistantTexts,
            List.filterMap_cons]
          simp only [assistantTexts] at ih
          simp [hA, ih st]

/-- The batch loop forwards nothing: its recorded effects contain no send. -/
lemma batchLoop_no_sends (sessionId : String) (chunks : List Chunk) (st : SessionStore) :
    sendsOf (batchLoop sessionId chunks st).2.1 = [] := by
  induction chunks generalizing st with
  | nil => rfl
  | cons c rest ih =>
    rw [batchLoop]
    cases hA : (c.type == CType.assistant && truthy c.content) with
    | true => simp [hA, ih st]
    | false =>
      cases hB : (c.type == CType.tool && truthy c.toolName) with
      | true => simp [hA, hB, ih st]
      | false =>
        cases hC : (c.type == CType.result && truthy c.sessionId) with
        | true =>
          simp only [hA, hB, hC, eq_self_iff_true, if_true, Bool.false_eq_true, if_false]
          have hrec := ih (updateSession st sessionId (c.sessionId.getD ""))
          simpa [sendsOf, List.filter_cons] using hrec
        | false => simp [hA, hB, hC, ih st]

/-- Buffered assistant texts are nonempty (JavaScript truthiness filter). -/
lemma assistantTexts_mem_ne (chunks : List Chunk) :
    ∀ m ∈ assistantTexts chunks, m ≠ "" := by
  induction chunks with
  | nil => intro m hm; simp [assistantTexts] at hm
  | cons c rest ih =>
    intro m hm
    rw [assistantTexts, List.filterMap_cons] at hm
    cases hA : (c.type == CType.assistant && truthy c.content) with
    | false =>
      rw [hA] at hm
      simp only [Bool.false_eq_true, if_false] at hm
      exact ih m (by simpa [assistantTexts] using hm)
    | true =>
      rw [hA] at hm
      simp only [eq_self_iff_true, if_true, List.mem_cons] at hm
      rcases hm with hm | hm
      · rw [Bool.and_eq_true] at hA
        have htr := hA.2
        cases hco : c.content with
        | none => rw [hco] at htr; simp [truthy] at htr
        | some s =>
          rw [hco] at htr
          simp only [truthy, bne_iff_ne, ne_eq] at htr
          rw [hco] at hm
          simpa [hm] using htr
      · exact ih m (by simpa [assistantTexts] using hm)

/-- `getLast?` returns a member. -/
lemma getLast?_mem_of_eq {α : Type} : ∀ (l : List α) (a : α), l.getLast? = some a → a ∈ l := by
  intro l
  induction l with
  | nil => intro a h; simp at h
  | cons x xs ih =>
    intro a h
    cases xs with
    | nil =>
      simp only [List.getLast?_singleton, Option.some.injEq] at h
      simp [h]
    | cons y ys =>
      rw [List.getLast?_cons_cons] at h
      exact List.mem_cons_of_mem x (ih a h)

/-- On buffers of nonempty texts, the code's final-message computation agrees
with the claim-side (amended) summary description. -/
lemma batchFinalMessage_eq_spec (msgs : List String) (h : ∀ m ∈ msgs, m ≠ "") :
    batchFinalMessage msgs = batchSpec msgs := by
  cases hl : msgs.getLast? with
  | none => simp [batchFinalMessage, batchSpec, hl]
  | some lastMessage =>
    have hne : lastMessage ≠ "" := h lastMessage (getLast?_mem_of_eq msgs lastMessage hl)
    have hdata : lastMessage.data.isEmpty = false := by
      cases hlm : lastMessage.data with
      | nil =>
        exfalso
        apply hne
        cases lastMessage with
        | mk d => simp at hlm; simp [hlm]
      | cons x xs => rfl
    rw [batchFinalMessage, batchSpec, hl]
    by_cases hfm : (jsTrim (joinNN ((splitNN lastMessage.data).filter
        (fun s => !(startsToolIndicator (jsTrim s)))))).isEmpty = true
    · simp only [hfm, if_true, hdata, Bool.false_eq_true, if_false, eq_self_iff_true]
    · simp [hfm]

/-- Counterexample to C4 as stated: with the single assistant chunk
`"hello "` no section is filtered out, the rejoined sections are `"hello "`,
but the single send carries the trimmed `"hello"`, not the rejoined text. -/
theorem batch_trim_cx :
    sendsOf (batchPhase envOk "session-0"
        [⟨CType.assistant, some "hello ", none, none, none⟩] none stEmpty).actions =
      [Action.send "hello"] ∧
    (splitNN "hello ".data).filter (fun s => !(startsToolIndicator (jsTrim s))) =
      ["hello ".data] ∧
    joinNN ["hello ".data] = "hello ".data ∧
    ("hello" : String) ≠ "hello " :=
  ⟨by decide, by decide, by decide, by decide⟩

/-- C4 (amended): in deduplicated-summary mode, after the stream is exhausted
the sends are exactly the claim-side summary — the last assistant chunk is
split at blank lines, sections whose trimmed text starts with a tool indicator
are dropped, the rejoined text is trimmed and sent as exactly one message;
when the trimmed rejoin is empty (in particular when filtering removed every
section) the original last chunk is sent verbatim; and when no assistant-text
chunk was produced, nothing is sent. -/
theorem batch_mode_summary (env : Env) (sessionId : String) (chunks : List Chunk)
    (st : SessionStore) (hs : ∀ t, env.sendFails t = false) :
    sendsOf (batchPhase env sessionId chunks none st).actions =
      (match batchSpec (assistantTexts chunks) with
       | none => []
       | some m => [Action.send m]) ∧
    batchFinalMessage (assistantTexts chunks) = batchSpec (assistantTexts chunks) ∧
    (assistantTexts chunks = [] →
      sendsOf (batchPhase env sessionId chunks none st).actions = []) := by
  have heq := batchFinalMessage_eq_spec (assistantTexts chunks) (assistantTexts_mem_ne chunks)
  have hml := batchLoop_msgs sessionId chunks st
  have hns := batchLoop_no_sends sessionId chunks st
  have hmain : sendsOf (batchPhase env sessionId chunks none st).actions =
      (match batchSpec (assistantTexts chunks) with
       | none => []
       | some m => [Action.send m]) := by
    rw [batchPhase, afterBatch, hml, heq]
    cases hspec : batchSpec (assistantTexts chunks) with
    | none => simpa using hns
    | some m =>
      simp only [hs m, Bool.false_eq_true, if_false]
      simp only [sendsOf, List.filter_append] at hns ⊢
      simp [hns]
  refine ⟨hmain, heq, ?_⟩
  intro h0
  rw [hmain, h0]
  rfl

/-- Witness for C4 (amended) with a two-paragraph final chunk whose first
paragraph is a tool-indicator section: exactly one send, carrying only the
second paragraph. -/
theorem batch_mode_summary_witness :
    (∀ t, envOk.sendFails t = false) ∧
      sendsOf (batchPhase envOk "session-0"
          [⟨CType.assistant, some toolThenSummary, none, none, none⟩]
          none stEmpty).actions =
        (match batchSpec (assistantTexts
            [⟨CType.assistant, some toolThenSummary, none, none, none⟩]) with
         | none => []
         | some m => [Action.send m]) ∧
      batchSpec (assistantTexts
          [⟨CType.assistant, some toolThenSummary, none, none, none⟩]) =
        some "Done!" :=
  ⟨fun _ => rfl,
   (batch_mode_summary envOk "session-0"
     [⟨CType.assistant, some toolThenSummary, none, none, none⟩]
     stEmpty (fun _ => rfl)).1,
   by decide⟩

/-- Splitting a count over an extra conjunct that fails at the found element:
if at most one element satisfies `p` and the one `find?` returns falsifies `q`,
no element satisfies `q && p`. -/
lemma countP_and_eq_zero (p q : Session → Bool) (l : List Session) (s : Session)
    (hf : l.find? p = some s) (hq : q s = false) (h1 : l.countP p ≤ 1) :
    l.countP (fun x => q x && p x) = 0 := by
  induction l with
  | nil => simp at hf
  | cons x xs ih =>
    cases hx : p x with
    | true =>
      rw [List.find?_cons_of_pos _ hx] at hf
      obtain rfl : x = s := by simpa using hf
      rw [List.countP_cons] at h1 ⊢
      simp only [hx, eq_self_iff_true, if_true] at h1
      have hzero : xs.countP p = 0 := by omega
      have hle : xs.countP (fun x => q x && p x) ≤ xs.countP p :=
        List.countP_mono_left (fun a _ hpa => by
          rw [Bool.and_eq_true] at hpa
          exact hpa.2)
      simp only [hq, Bool.false_and, Bool.false_eq_true, if_false, Nat.add_zero]
      omega
    | false =>
      rw [List.find?_cons_of_neg _ (by simp [hx])] at hf
      rw [List.countP_cons] at h1 ⊢
      simp only [hx, Bool.false_eq_true, if_false, Nat.add_zero] at h1
      simp only [hx, Bool.and_false, Bool.false_eq_true, if_false, Nat.add_zero]
      exact ih hf h1

/-- Counting active sessions after a deactivation. -/
lemma countP_deactivate (cid sid : String) (l : List Session) :
    (l.map (fun s => if s.id == sid then { s with active := false } else s)).countP
      (activeFor cid) =
    l.countP (fun s => !(s.id == sid) && activeFor cid s) := by
  induction l with
  | nil => rfl
  | cons x xs ih =>
    simp only [List.map_cons, List.countP_cons, ih]
    cases hx : (x.id == sid) with
    | true => simp [hx, activeFor]
    | false => simp [hx]

/-- Deactivation never increases the number of active sessions. -/
lemma amoa_deactivate (st : SessionStore) (sid : String) (h : AtMostOneActive st) :
    AtMostOneActive (deactivateSession st sid) := by
  intro cid
  have h1 : (deactivateSession st sid).sessions.countP (activeFor cid) =
      st.sessions.countP (fun s => !(s.id == sid) && activeFor cid s) :=
    countP_deactivate cid sid st.sessions
  rw [h1]
  calc st.sessions.countP (fun s => !(s.id == sid) && activeFor cid s)
      ≤ st.sessions.countP (activeFor cid) :=
        List.countP_mono_left (fun a _ hpa => by
          rw [Bool.and_eq_true] at hpa
          exact hpa.2)
    _ ≤ 1 := h cid

/-- With no active session found, the active count is zero. -/
lemma countP_zero_of_getActive_none (st : SessionStore) (cid : String)
    (h : getActiveSession st cid = none) : st.sessions.countP (activeFor cid) = 0 := by
  rw [List.countP_eq_zero]
  intro a ha
  exact List.find?_eq_none.mp h a ha

/-- After deactivating the found active session, the conversation has no active
session left. -/
lemma active_zero_after_deactivate (st : SessionStore) (cid : String) (s : Session)
    (hf : getActiveSession st cid = some s) (h : AtMostOneActive st) :
    (deactivateSession st s.id).sessions.countP (activeFor cid) = 0 := by
  have h1 : (deactivateSession st s.id).sessions.countP (activeFor cid) =
      st.sessions.countP (fun x => !(x.id == s.id) && activeFor cid x) :=
    countP_deactivate cid s.id st.sessions
  rw [h1]
  exact countP_and_eq_zero (activeFor cid) (fun x => !(x.id == s.id)) st.sessions s hf
    (by simp) (h cid)

/-- Creating a session for a conversation with no active session preserves the
invariant. -/
lemma amoa_create (st : SessionStore) (cid : String) (cbid : Option String) (atyp : String)
    (h : AtMostOneActive st) (hzero : st.sessions.countP (activeFor cid) = 0) :
    AtMostOneActive (createSession st cid cbid atyp).1 := by
  intro cid'
  simp only [createSession, List.countP_append]
  by_cases hc : cid' = cid
  · subst hc
    rw [hzero]
    simp [activeFor, List.countP_cons]
  · have h1 := h cid'
    have h2 : (cid == cid') = false := by
      simp only [beq_eq_false_iff_ne, ne_eq]
      exact fun e => hc e.symm
    simp only [activeFor, List.countP_cons, List.countP_nil, h2, Bool.false_and,
      Bool.false_eq_true, if_false, Nat.add_zero, Nat.zero_add]
    omega

/-- Persisting the backend token does not change which sessions are active. -/
lemma countP_update_token (cid sid tok : String) (l : List Session) :
    (l.map (fun s =>
      if s.id == sid then { s with assistant_session_id := some tok } else s)).countP
        (activeFor cid) = l.countP (activeFor cid) := by
  induction l with
  | nil => rfl
  | cons x xs ih =>
    simp only [List.map_cons, List.countP_cons, ih]
    cases hx : (x.id == sid) with
    | true => simp [hx, activeFor]
    | false => simp [hx]

/-- Recording the last command does not change which sessions are active. -/
lemma countP_update_meta (cid sid name : String) (l : List Session) :
    (l.map (fun s =>
      if s.id == sid then { s with lastCommand := some name } else s)).countP
        (activeFor cid) = l.countP (activeFor cid) := by
  induction l with
  | nil => rfl
  | cons x xs ih =>
    simp only [List.map_cons, List.countP_cons, ih]
    cases hx : (x.id == sid) with
    | true => simp [hx, activeFor]
    | false => simp [hx]

lemma amoa_updateSession (st : SessionStore) (sid tok : String) (h : AtMostOneActive st) :
    AtMostOneActive (updateSession st sid tok) := by
  intro cid
  have h1 : (updateSession st sid tok).sessions.countP (activeFor cid) =
      st.sessions.countP (activeFor cid) := countP_update_token cid sid tok st.sessions
  rw [h1]
  exact h cid

lemma amoa_updateSessionMetadata (st : SessionStore) (sid name : String)
    (h : AtMostOneActive st) : AtMostOneActive (updateSessionMetadata st sid name) := by
  intro cid
  have h1 : (updateSessionMetadata st sid name).sessions.countP (activeFor cid) =
      st.sessions.countP (activeFor cid) := countP_update_meta cid sid name st.sessions
  rw [h1]
  exact h cid

/-- The stream loop only writes backend tokens: the invariant is preserved. -/
lemma amoa_streamLoop (env : Env) (sid : String) :
    ∀ (chunks : List Chunk) (st : SessionStore), AtMostOneActive st →
      AtMostOneActive ((streamLoop env sid chunks st).store) := by
  intro chunks
  induction chunks with
  | nil => intro st h; exact h
  | cons c rest ih =>
    intro st h
    rw [streamLoop]
    cases hA : (c.type == CType.assistant && truthy c.content) with
    | true =>
      cases hf : env.sendFails (c.content.getD "") with
      | true => simpa [hA, hf] using h
      | false => simpa [hA, hf] using ih st h
    | false =>
      cases hB : (c.type == CType.tool && truthy c.toolName) with
      | true =>
        cases hf : env.sendFails (env.formatToolCall (c.toolName.getD "") c.toolInput) with
        | true => simpa [hA, hB, hf] using h
        | false => simpa [hA, hB, hf] using ih st h
      | false =>
        cases hC : (c.type == CType.result && truthy c.sessionId) with
        | true =>
          have := ih (updateSession st sid (c.sessionId.getD ""))
            (amoa_updateSession st sid (c.sessionId.getD "") h)
          simpa [hA, hB, hC] using this
        | false => simpa [hA, hB, hC] using ih st h

/-- The batch loop only writes backend tokens: the invariant is preserved. -/
lemma amoa_batchLoop (sid : String) :
    ∀ (chunks : List Chunk) (st : SessionStore), AtMostOneActive st →
      AtMostOneActive ((batchLoop sid chunks st).1) := by
  intro chunks
  induction chunks with
  | nil => intro st h; exact h
  | cons c rest ih =>
    intro st h
    rw [batchLoop]
    cases hA : (c.type == CType.assistant && truthy c.content) with
    | true => simpa [hA] using ih st h
    | false =>
      cases hB : (c.type == CType.tool && truthy c.toolName) with
      | true => simpa [hA, hB] using ih st h
      | false =>
        cases hC : (c.type == CType.result && truthy c.sessionId) with
        | true =>
          have := ih (updateSession st sid (c.sessionId.getD ""))
            (amoa_updateSession st sid (c.sessionId.getD "") h)
          simpa [hA, hB, hC] using this
        | false => simpa [hA, hB, hC] using ih st h

lemma amoa_afterStream (o : Out) (err : Option String) (h : AtMostOneActive o.store) :
    AtMostOneActive ((afterStream o err).store) := by
  obtain ⟨ost, oacts, ores⟩ := o
  cases ores <;> cases err <;> exact h

lemma amoa_streamPhase (env : Env) (sid : String) (chunks : List Chunk) (err : Option String)
    (st : SessionStore) (h : AtMostOneActive st) :
    AtMostOneActive ((streamPhase env sid chunks err st).store) :=
  amoa_afterStream _ err (amoa_streamLoop env sid chunks st h)

lemma amoa_afterBatch (env : Env) (r : SessionStore × List Action × List String)
    (err : Option String) (h : AtMostOneActive r.1) :
    AtMostOneActive ((afterBatch env r err).store) := by
  obtain ⟨st₂, acts, msgs⟩ := r
  cases err with
  | some e => exact h
  | none =>
    cases hbm : batchFinalMessage msgs with
    | none => simp only [afterBatch, hbm]; exact h
    | some m =>
      cases hsf : env.sendFails m with
      | true => simp only [afterBatch, hbm, hsf, if_true, eq_self_iff_true]; exact h
      | false =>
        simp only [afterBatch, hbm, hsf, Bool.false_eq_true, if_false]
        exact h

lemma amoa_batchPhase (env : Env) (sid : String) (chunks : List Chunk) (err : Option String)
    (st : SessionStore) (h : AtMostOneActive st) :
    AtMostOneActive ((batchPhase env sid chunks err st).store) :=
  amoa_afterBatch env _ err (amoa_batchLoop sid chunks st h)

/-- The session decision creates a session only when the conversation has no
active one, or right after deactivating the one it had. -/
lemma amoa_sessionArm (conversation : Conversation) (commandName : Option String)
    (st : SessionStore) (h : AtMostOneActive st) :
    AtMostOneActive (sessionArm conversation commandName st).1 := by
  rw [sessionArm]
  cases hsess : getActiveSession st conversation.id with
  | some s =>
    cases hb : (commandName == some "execute" && (s.lastCommand == some "plan-feature")) with
    | true =>
      simp only [hsess, Option.some_bind, hb, if_true, eq_self_iff_true]
      exact amoa_create _ _ _ _ (amoa_deactivate st s.id h)
        (active_zero_after_deactivate st conversation.id s hsess h)
    | false =>
      simp only [hsess, Option.some_bind, hb, Bool.false_eq_true, if_false]
      exact h
  | none =>
    simp only [hsess, Option.none_bind]
    split
    all_goals
      exact amoa_create _ _ _ _ h (countP_zero_of_getActive_none st conversation.id hsess)

lemma amoa_metaArm (o : Out) (sid : String) (cname : Option String)
    (h : AtMostOneActive o.store) : AtMostOneActive (metaArm o sid cname).store := by
  obtain ⟨ost, oacts, ores⟩ := o
  cases ores with
  | ok u =>
    cases cname with
    | some n => exact amoa_updateSessionMetadata ost sid n h
    | none => exact h
  | error e =>
    cases cname with
    | some n => exact h
    | none => exact h

lemma amoa_runAI (env : Env) (mode : Mode) (conversation : Conversation) (P : String)
    (cname : Option String) (st : SessionStore) (h : AtMostOneActive st) :
    AtMostOneActive (runAI env mode conversation P cname st).store := by
  unfold runAI
  apply amoa_metaArm
  cases mode with
  | stream => exact amoa_streamPhase _ _ _ _ _ (amoa_sessionArm conversation cname st h)
  | batch => exact amoa_batchPhase _ _ _ _ _ (amoa_sessionArm conversation cname st h)

lemma amoa_sendTo (env : Env) (st : SessionStore) (text : String) (h : AtMostOneActive st) :
    AtMostOneActive (sendTo env st text).store := by
  rw [sendTo]
  cases hsf : env.sendFails text with
  | true => simpa [hsf] using h
  | false => simpa [hsf] using h

lemma amoa_setcwdCommand (env : Env) (conversation : Conversation) (args : List String)
    (st : SessionStore) (h : AtMostOneActive st) :
    AtMostOneActive (setcwdCommand env conversation args st).2 := by
  unfold setcwdCommand
  repeat' (first | split | dsimp only)
  all_goals first | exact h | exact amoa_deactivate st _ h

lemma amoa_cloneCommand (env : Env) (conversation : Conversation) (args : List String)
    (st : SessionStore) (h : AtMostOneActive st) :
    AtMostOneActive (cloneCommand env conversation args st).2 := by
  unfold cloneCommand
  repeat' (first | split | dsimp only)
  all_goals first | exact h | exact amoa_deactivate st _ h

lemma amoa_resetCommand (conversation : Conversation) (st : SessionStore)
    (h : AtMostOneActive st) : AtMostOneActive (resetCommand conversation st).2 := by
  unfold resetCommand
  repeat' (first | split | dsimp only)
  all_goals first | exact h | exact amoa_deactivate st _ h

lemma amoa_commandSetCommand (env : Env) (conversation : Conversation) (args : List String)
    (st : SessionStore) (h : AtMostOneActive st) :
    AtMostOneActive (commandSetCommand env conversation args st).2 := by
  unfold commandSetCommand
  repeat' (first | split | dsimp only)
  all_goals exact h

lemma amoa_loadCommandsCommand (env : Env) (conversation : Conversation) (args : List String)
    (st : SessionStore) (h : AtMostOneActive st) :
    AtMostOneActive (loadCommandsCommand env conversation args st).2 := by
  unfold loadCommandsCommand
  repeat' (first | split | dsimp only)
  all_goals exact h

lemma amoa_commandsCommand (env : Env) (conversation : Conversation)
    (st : SessionStore) (h : AtMostOneActive st) :
    AtMostOneActive (commandsCommand env conversation st).2 := by
  unfold commandsCommand
  repeat' (first | split | dsimp only)
  all_goals exact h

lemma amoa_reposCommand (env : Env) (conversation : Conversation)
    (st : SessionStore) (h : AtMostOneActive st) :
    AtMostOneActive (reposCommand env conversation st).2 := by
  unfold reposCommand
  repeat' (first | split | dsimp only)
  all_goals exact h

set_option maxHeartbeats 1600000

/-- The command handler only ever deactivates sessions (setcwd, clone, reset);
no branch creates one. -/
lemma amoa_handleCommand (env : Env) (conversation : Conversation) (message : String)
    (st : SessionStore) (h : AtMostOneActive st) :
    AtMostOneActive (handleCommand env conversation message st).2 := by
  unfold handleCommand
  dsimp only
  split_ifs
  · exact h
  · exact h
  · exact h
  · exact amoa_setcwdCommand env conversation _ st h
  · exact amoa_cloneCommand env conversation _ st h
  · exact amoa_commandSetCommand env conversation _ st h
  · exact amoa_loadCommandsCommand env conversation _ st h
  · exact amoa_commandsCommand env conversation st h
  · exact amoa_reposCommand env conversation st h
  · exact amoa_resetCommand conversation st h
  · exact h

set_option maxHeartbeats 200000

/-- Every branch of the message body preserves the invariant. -/
lemma amoa_handleBody (env : Env) (mode : Mode) (conversation : Conversation)
    (message : String) (issueContext : Option String) (st : SessionStore)
    (h : AtMostOneActive st) :
    AtMostOneActive (handleBody env mode conversation message issueContext st).store := by
  rw [handleBody]
  cases h1 : strStarts message "/" with
  | true =>
    cases h2 : strStarts message "/command-invoke" with
    | false =>
      simp only [h1, h2, Bool.not_false, if_true, eq_self_iff_true]
      exact amoa_sendTo env _ _ (amoa_handleCommand env conversation message st h)
    | true =>
      simp only [h1, h2, Bool.not_true, Bool.false_eq_true, if_false, if_true,
        eq_self_iff_true]
      split
      · exact amoa_sendTo env st _ h
      · split
        · exact amoa_sendTo env st _ h
        · split
          · exact amoa_sendTo env st _ h
          · split
            · exact amoa_sendTo env st _ h
            · split
              · exact amoa_sendTo env st _ h
              · exact amoa_runAI env mode conversation _ _ st h
  | false =>
    simp only [h1, Bool.false_eq_true, if_false]
    split
    · exact amoa_sendTo env st _ h
    · exact amoa_runAI env mode conversation _ _ st h

/-- C3: at most one session is active per conversation, and every operation —
message handling (including plan-to-execute rotation) and the command handler
(/reset, /setcwd, /clone and the rest) — preserves it: sessions are created
only when none is active or right after the active one is deactivated. -/
theorem single_active_session_invariant (env : Env) (mode : Mode)
    (conversation : Conversation) (message : String) (issueContext : Option String)
    (st : SessionStore) (h : AtMostOneActive st) :
    AtMostOneActive (handleMessage env mode conversation message issueContext st).store ∧
    AtMostOneActive (handleCommand env conversation message st).2 := by
  constructor
  · rw [handleMessage]
    have hb := amoa_handleBody env mode conversation (normalizeCommand message) issueContext st h
    cases hres : (handleBody env mode conversation (normalizeCommand message) issueContext
        st).result with
    | ok u => simpa [hres] using hb
    | error e =>
      cases hsf : env.sendFails errNotice with
      | true => simpa [hres, hsf] using hb
      | false => simpa [hres, hsf] using hb
  · exact amoa_handleCommand env conversation message st h

/-- Witness for C3: the rotation input itself (an active `plan-feature` session
and `/command-invoke execute`), plus the `/reset` handler path. -/
theorem single_active_session_invariant_witness :
    AtMostOneActive stPlan ∧
      (AtMostOneActive
          (handleMessage envExec Mode.stream convCb "/command-invoke execute" none
            stPlan).store ∧
        AtMostOneActive (handleCommand envExec convCb "/command-invoke execute" stPlan).2) :=
  ⟨fun cid => by
    simp only [stPlan]
    cases hc : (activeFor cid sessPlan) <;> simp [List.countP_cons, hc],
   single_active_session_invariant envExec Mode.stream convCb "/command-invoke execute" none
     stPlan
     (fun cid => by
       simp only [stPlan]
       cases hc : (activeFor cid sessPlan) <;> simp [List.countP_cons, hc])⟩

/-- The actions of `handleMessage` extend those of its body (the catch block
only ever appends the notice send). -/
lemma handleMessage_actions_ext (env : Env) (mode : Mode) (conversation : Conversation)
    (message : String) (issueContext : Option String) (st : SessionStore) :
    ∃ t, (handleMessage env mode conversation message issueContext st).actions =
      (handleBody env mode conversation (normalizeCommand message) issueContext st).actions ++
        t := by
  rw [handleMessage]
  cases hres : (handleBody env mode conversation (normalizeCommand message) issueContext
      st).result with
  | ok u => exact ⟨[], by simp [hres]⟩
  | error e =>
    cases hf : env.sendFails errNotice with
    | true => exact ⟨[], by simp [hres, hf]⟩
    | false => exact ⟨[Action.send errNotice], by simp [hres, hf]⟩

/-- Forced rotation arm of the session decision: active session whose metadata
records the planning command, invoked command `execute` — deactivate, create
fresh, query with no resume token. -/
lemma runAI_rotation_case (env : Env) (mode : Mode) (conversation : Conversation) (P : String)
    (st : SessionStore) (s : Session) (codebaseId : String) (cb : Codebase)
    (hcb : conversation.codebase_id = some codebaseId)
    (hget : env.getCodebase codebaseId = some cb)
    (hsess : getActiveSession st conversation.id = some s)
    (hplan : s.lastCommand = some "plan-feature") :
    ∃ rest, (runAI env mode conversation P (some "execute") st).actions =
      Action.deactivatedSession s.id :: Action.createdSession (freshSessionId st) ::
      Action.backendQuery P (conversation.cwd.getD cb.default_cwd) none :: rest := by
  unfold runAI
  simp only [sessionArm, hsess, hcb, hget, hplan, Option.bind_some, Option.map_some,
    Option.getD_some, Option.some_bind, createSession, freshSessionId, deactivateSession]
  simp only [beq_self_eq_true, Bool.and_self, if_true, List.cons_append, List.nil_append,
    List.append_assoc, List.singleton_append]
  exact ⟨_, rfl⟩

/-- Resume arm: active session, but the rotation condition does not hold — the
stored backend token is forwarded and no session is created or deactivated
before the query. -/
lemma runAI_resume_case (env : Env) (mode : Mode) (conversation : Conversation) (P : String)
    (st : SessionStore) (s : Session) (codebaseId : String) (cb : Codebase)
    (hcb : conversation.codebase_id = some codebaseId)
    (hget : env.getCodebase codebaseId = some cb)
    (hsess : getActiveSession st conversation.id = some s)
    (hplan : s.lastCommand ≠ some "plan-feature") :
    ∃ rest, (runAI env mode conversation P (some "execute") st).actions =
      Action.backendQuery P (conversation.cwd.getD cb.default_cwd)
        s.assistant_session_id :: rest := by
  unfold runAI
  have hbeq : (s.lastCommand == some "plan-feature") = false := by
    simpa using hplan
  simp only [sessionArm, hsess, hcb, hget, Option.bind_some, Option.map_some,
    Option.getD_some, Option.some_bind, hbeq, Bool.and_false, Bool.false_eq_true, if_false,
    List.nil_append, List.cons_append]
  exact ⟨_, rfl⟩

/-- Fresh-session arm: no active session — one is created and queried with no
resume token. -/
lemma runAI_create_case (env : Env) (mode : Mode) (conversation : Conversation) (P : String)
    (st : SessionStore) (codebaseId : String) (cb : Codebase)
    (hcb : conversation.codebase_id = some codebaseId)
    (hget : env.getCodebase codebaseId = some cb)
    (hsess : getActiveSession st conversation.id = none) :
    ∃ rest, (runAI env mode conversation P (some "execute") st).actions =
      Action.createdSession (freshSessionId st) ::
      Action.backendQuery P (conversation.cwd.getD cb.default_cwd) none :: rest := by
  unfold runAI
  simp only [sessionArm, hsess, hcb, hget, Option.bind_some, Option.some_bind,
    Option.map_some, Option.getD_some, Option.none_bind, Option.bind_none, createSession,
    freshSessionId]
  simp only [Bool.and_eq_true, beq_iff_eq, Option.some.injEq, reduceCtorEq, and_false,
    Bool.and_false, Bool.false_eq_true, if_false, List.cons_append, List.nil_append]
  exact ⟨_, rfl⟩

/-- The body of an `/command-invoke execute` message that resolves its codebase,
command definition and command file reduces to the AI path with command name
`execute`. -/
lemma handleBody_execute_invoke (env : Env) (mode : Mode) (conversation : Conversation)
    (message : String) (issueContext : Option String) (st : SessionStore)
    (codebaseId : String) (cb : Codebase) (cdef : CommandDef) (txt : String)
    (restArgs : List String)
    (hstart : strStarts message "/command-invoke" = true)
    (hargs : (parseCommand message).args = "execute" :: restArgs)
    (hcb : conversation.codebase_id = some codebaseId)
    (hget : env.getCodebase codebaseId = some cb)
    (hcmd : lookupCmd cb.commands "execute" = some cdef)
    (hread : env.readCommandFile (conversation.cwd.getD cb.default_cwd) cdef.path = .ok txt) :
    handleBody env mode conversation message issueContext st =
      runAI env mode conversation
        (match issueContext with
         | some ctx => env.substituteVariables txt restArgs ++ "\n\n---\n\n" ++ ctx
         | none => env.substituteVariables txt restArgs)
        (some "execute") st := by
  have hsl : strStarts message "/" = true := strStarts_slash_of_invoke hstart
  rw [handleBody]
  simp only [hsl, eq_self_iff_true, if_true, hstart, Bool.not_true, Bool.false_eq_true,
    if_false, hargs, hcb, hget, hcmd, hread]

/-- C2: on a `/command-invoke execute` message whose command resolution
succeeds, if the active session's metadata records `plan-feature`, the
orchestrator deactivates it and creates a brand-new session (queried with no
resume token — the old token is not carried over) before querying the backend;
absent that condition an active session is resumed with its stored token, and
with no active session a fresh one is created. -/
theorem plan_execute_rotation (env : Env) (mode : Mode) (conversation : Conversation)
    (message : String) (issueContext : Option String) (st : SessionStore)
    (codebaseId : String) (cb : Codebase) (cdef : CommandDef) (txt : String)
    (restArgs : List String)
    (hnorm : normalizeCommand message = message)
    (hstart : strStarts message "/command-invoke" = true)
    (hargs : (parseCommand message).args = "execute" :: restArgs)
    (hcb : conversation.codebase_id = some codebaseId)
    (hget : env.getCodebase codebaseId = some cb)
    (hcmd : lookupCmd cb.commands "execute" = some cdef)
    (hread : env.readCommandFile (conversation.cwd.getD cb.default_cwd) cdef.path = .ok txt) :
    (∀ s, getActiveSession st conversation.id = some s →
      s.lastCommand = some "plan-feature" →
      ∃ p rest, (handleMessage env mode conversation message issueContext st).actions =
        Action.deactivatedSession s.id :: Action.createdSession (freshSessionId st) ::
        Action.backendQuery p (conversation.cwd.getD cb.default_cwd) none :: rest) ∧
    (∀ s, getActiveSession st conversation.id = some s →
      s.lastCommand ≠ some "plan-feature" →
      ∃ p rest, (handleMessage env mode conversation message issueContext st).actions =
        Action.backendQuery p (conversation.cwd.getD cb.default_cwd)
          s.assistant_session_id :: rest) ∧
    (getActiveSession st conversation.id = none →
      ∃ p rest, (handleMessage env mode conversation message issueContext st).actions =
        Action.createdSession (freshSessionId st) ::
        Action.backendQuery p (conversation.cwd.getD cb.default_cwd) none :: rest) := by
  obtain ⟨t, ht⟩ := handleMessage_actions_ext env mode conversation message issueContext st
  rw [hnorm] at ht
  have hbody := handleBody_execute_invoke env mode conversation message issueContext st
    codebaseId cb cdef txt restArgs hstart hargs hcb hget hcmd hread
  rw [hbody] at ht
  refine ⟨?_, ?_, ?_⟩
  · intro s hsess hplan
    obtain ⟨rest, hr⟩ := runAI_rotation_case env mode conversation _ st s codebaseId cb
      hcb hget hsess hplan
    refine ⟨(match issueContext with
      | some ctx => env.substituteVariables txt restArgs ++ "\n\n---\n\n" ++ ctx
      | none => env.substituteVariables txt restArgs), rest ++ t, ?_⟩
    rw [ht, hr]
    simp [List.cons_append]
  · intro s hsess hplan
    obtain ⟨rest, hr⟩ := runAI_resume_case env mode conversation _ st s codebaseId cb
      hcb hget hsess hplan
    refine ⟨(match issueContext with
      | some ctx => env.substituteVariables txt restArgs ++ "\n\n---\n\n" ++ ctx
      | none => env.substituteVariables txt restArgs), rest ++ t, ?_⟩
    rw [ht, hr]
    simp [List.cons_append]
  · intro hsess
    obtain ⟨rest, hr⟩ := runAI_create_case env mode conversation _ st codebaseId cb
      hcb hget hsess
    refine ⟨(match issueContext with
      | some ctx => env.substituteVariables txt restArgs ++ "\n\n---\n\n" ++ ctx
      | none => env.substituteVariables txt restArgs), rest ++ t, ?_⟩
    rw [ht, hr]
    simp [List.cons_append]

/-- Witness for C2: concrete `/command-invoke execute` on a store holding an
active `plan-feature` session, an empty store, and a modified store whose
session metadata is not the planning command. -/
theorem plan_execute_rotation_witness :
    normalizeCommand "/command-invoke execute" = "/command-invoke execute" ∧
      getActiveSession stPlan convCb.id = some sessPlan ∧
      sessPlan.lastCommand = some "plan-feature" ∧
      (∃ p rest,
        (handleMessage envExec Mode.stream convCb "/command-invoke execute" none
            stPlan).actions =
          Action.deactivatedSession sessPlan.id ::
          Action.createdSession (freshSessionId stPlan) ::
          Action.backendQuery p (convCb.cwd.getD cbExec.default_cwd) none :: rest) :=
  ⟨rfl, by decide, rfl,
   (plan_execute_rotation envExec Mode.stream convCb "/command-invoke execute" none stPlan
       "cb-1" cbExec ⟨"cmds/execute.md", "d"⟩ "do it" []
       (by decide) (by decide) (by decide) rfl rfl (by decide) rfl).1
     sessPlan (by decide) rfl⟩

/-- Witness for C7 at the concrete freeform message `hi`. -/
theorem no_codebase_guard_witness :
    convNoCb.codebase_id = none ∧
      ∃ e, handleMessage envOk Mode.stream convNoCb "hi" none stEmpty =
        ⟨stEmpty, [Action.send e], .ok ()⟩ :=
  ⟨rfl,
   no_codebase_guard envOk Mode.stream convNoCb "hi" none stEmpty (fun _ => rfl) rfl
     (Or.inl (by decide))⟩

end Bd
